import Mathlib

/-!
Verification development for the FloorPlanComparer repository.

Two groups of definitions are embedded here.

1. The alignment-and-matching core (spec sections 3 to 7).  The repository
   snapshot ships only the frontend sources, the docs and the scripts; the
   backend matching engine itself is absent, so the core is modelled from the
   specification text.  Every definition in that group carries a doc comment
   starting with `Modelled from the spec:` naming the missing code.  Scalars
   are modelled as integers (the spec's drawing-unit floats), with the
   Euclidean tolerance test carried out on squared distances so that every
   definition is executable and kernel-decidable.

2. Shallow embeddings of three frontend functions that are present in the
   sources: the `DiffCanvas` view-box computation, the `DiffViewer` pdf-report
   lookup, and the `useJobs.refreshJobs` state transition.  These are
   translated directly from the TypeScript.
-/

namespace FloorPlan

/-- Modelled from the spec: the `entity_type` enumeration of the missing
backend `GeometryEntity` model (spec section 3). -/
inductive EntityType
  | point
  | line
  | polyline
  | arc
  | circle
  | text
  | insert
  deriving DecidableEq

/-- Modelled from the spec: the `source` tag of the missing backend
`GeometryEntity` model (spec section 3). -/
inductive Source
  | original
  | revised
  deriving DecidableEq

/-- A 2-D coordinate; drawing-unit floats are modelled as integers. -/
abbrev Coord := ℤ × ℤ

/-- Modelled from the spec: the missing backend `GeometryEntity` record
(spec section 3): stable identifier, enumerated type, layer, color,
ordered vertex list, optional text, and source tag. -/
structure GeometryEntity where
  entity_id : String
  entity_type : EntityType
  layer : String
  color : ℤ
  vertices : List Coord
  text_content : Option String
  source : Source
  deriving DecidableEq

/-- Modelled from the spec: the missing backend `ToleranceProfile`
configuration (spec section 3). -/
structure ToleranceProfile where
  position_tolerance : ℤ
  angle_tolerance : ℤ
  attribute_strict : Bool
  deriving DecidableEq

/-- Modelled from the spec: the missing backend `NormalizationTransform`
(spec section 3).  The similarity fit is modelled axis-aligned (rotation 0),
so the transform is a uniform scale plus a translation; it is invertible
exactly when `scale` is non-zero. -/
structure NormalizationTransform where
  scale : ℤ
  tx : ℤ
  ty : ℤ
  deriving DecidableEq

/-- The identity transform used by the normalizer's last fallback. -/
def identityTransform : NormalizationTransform := ⟨1, 0, 0⟩

/-- Apply a normalization transform to one point. -/
def applyTransform (t : NormalizationTransform) (p : Coord) : Coord :=
  (t.scale * p.1 + t.tx, t.scale * p.2 + t.ty)

/-- Apply a normalization transform to every vertex of an entity,
producing a transformed copy (spec section 4.1 step 4). -/
def transformEntity (t : NormalizationTransform) (e : GeometryEntity) : GeometryEntity :=
  { e with vertices := e.vertices.map (applyTransform t) }

/-- Modelled from the spec: the configurable allow-list of axis/reference
layers scanned by grid detection (spec section 4.1 step 1). -/
def axisLayers : List String := ["AXIS", "GRID", "DIM"]

/-- Modelled from the spec: grid-node extraction of the missing normalizer;
each axis-layer entity contributes its reference point (its first vertex). -/
def gridNodes (c : List GeometryEntity) : List Coord :=
  (c.filter (fun e => decide (e.layer ∈ axisLayers))).filterMap (fun e => e.vertices.head?)

/-- Chebyshev spacing between two grid nodes, as a natural number. -/
def spacingN (p q : Coord) : ℕ :=
  max (q.1 - p.1).natAbs (q.2 - p.2).natAbs

/-- Modelled from the spec: the grid-axis similarity fit of the missing
normalizer (spec section 4.1 step 2), specialised to the two dominant grid
nodes of each collection.  The closed-form fit maps the first revised node
onto the first original node with the exact spacing-quotient scale; when the
spacings are not commensurate (the residual-threshold rejection of the spec)
or degenerate, the fit is rejected and `none` triggers the fallback. -/
def gridFit (o r : List GeometryEntity) : Option NormalizationTransform :=
  match gridNodes o, gridNodes r with
  | po :: qo :: _, pr :: qr :: _ =>
      let dO := spacingN po qo
      let dR := spacingN pr qr
      if dR ≠ 0 ∧ dO ≠ 0 ∧ dR ∣ dO then
        let s : ℤ := ((dO / dR : ℕ) : ℤ)
        some { scale := s, tx := po.1 - s * pr.1, ty := po.2 - s * pr.2 }
      else none
  | _, _ => none

/-- All vertices of a collection, in order. -/
def vertsOf (c : List GeometryEntity) : List Coord :=
  c.flatMap (fun e => e.vertices)

/-- Doubled bounding-box center (min plus max per axis) of a collection,
`none` when the collection has no vertices at all. -/
def bboxSum (c : List GeometryEntity) : Option (ℤ × ℤ) :=
  match vertsOf c with
  | [] => none
  | v :: vs =>
      some (vs.foldl (fun m p => min m p.1) v.1 + vs.foldl (fun m p => max m p.1) v.1,
            vs.foldl (fun m p => min m p.2) v.2 + vs.foldl (fun m p => max m p.2) v.2)

/-- Modelled from the spec: the bounding-box fallback of the missing
normalizer (spec section 4.1 step 3): translation-only alignment of the two
bounding-box centers, scale 1, rotation 0. -/
def bboxFallbackT (o r : List GeometryEntity) : NormalizationTransform :=
  match bboxSum o, bboxSum r with
  | some co, some cr => ⟨1, (co.1 - cr.1) / 2, (co.2 - cr.2) / 2⟩
  | _, _ => identityTransform

/-- Modelled from the spec: the diagnostic taxonomy (spec sections 4.1 and 7):
the three normalization severities plus per-entity input errors and
degenerate-geometry warnings. -/
inductive Diagnostic
  | gridFit
  | bboxFallback
  | identityFallback
  | inputError (entity_id : String)
  | degenerateWarning (entity_id : String)
  deriving DecidableEq

/-- Modelled from the spec: the missing `normalize` entry point
(spec section 4.1).  Grid fit first, bounding-box fallback second, and the
identity transform for collections with fewer than 2 entities; it always
returns a transform plus one of the three severities and never fails. -/
def normalize (o r : List GeometryEntity) : NormalizationTransform × Diagnostic :=
  if o.length < 2 ∨ r.length < 2 then (identityTransform, Diagnostic.identityFallback)
  else
    match gridFit o r with
    | some t => (t, Diagnostic.gridFit)
    | none => (bboxFallbackT o r, Diagnostic.bboxFallback)

/-- Integer-rounded centroid of a vertex list ((0,0) for the empty list). -/
def centroid (vs : List Coord) : Coord :=
  match vs with
  | [] => (0, 0)
  | _ :: _ =>
      ((vs.map (fun p => p.1)).sum / (vs.length : ℤ),
       (vs.map (fun p => p.2)).sum / (vs.length : ℤ))

/-- Squared Euclidean distance between two points. -/
def sqDist (p q : Coord) : ℤ :=
  (p.1 - q.1) * (p.1 - q.1) + (p.2 - q.2) * (p.2 - q.2)

/-- Modelled from the spec: degenerate geometry (zero-length line and the
like, spec section 4.3 failure semantics): no vertex, or all vertices equal. -/
def degenerate (e : GeometryEntity) : Bool :=
  match e.vertices with
  | [] => true
  | v :: vs => vs.all (fun u => decide (u = v))

/-- Modelled from the spec: the vertex-set alignment cost of the missing
matcher (spec section 4.3 step 2b), modelled as the summed squared distance
of the index-aligned vertex correspondence; degenerate entities are excluded
from vertex-alignment scoring and fall back to centroid-only scoring. -/
def vertexCost (eo er : GeometryEntity) : ℤ :=
  if degenerate eo || degenerate er then 0
  else ((eo.vertices.zip er.vertices).map (fun pq => sqDist pq.1 pq.2)).sum

/-- Modelled from the spec: the attribute-mismatch penalty of the missing
matcher (spec section 4.3 step 2c): non-zero only when `attribute_strict` is
set and layer, color or text differ. -/
def attrPenalty (t : ToleranceProfile) (eo er : GeometryEntity) : ℤ :=
  if t.attribute_strict &&
      (decide (eo.layer ≠ er.layer) || decide (eo.color ≠ er.color) ||
        decide (eo.text_content ≠ er.text_content)) then 1
  else 0

/-- Modelled from the spec: the `distance_score` of a `MatchCandidate`
(spec section 3): weighted combination (weights 1) of centroid displacement,
vertex-set alignment cost and attribute penalty, on squared distances. -/
def distanceScore (t : ToleranceProfile) (eo er : GeometryEntity) : ℤ :=
  sqDist (centroid eo.vertices) (centroid er.vertices) + vertexCost eo er + attrPenalty t eo er

/-- Modelled from the spec: the tolerance's combined threshold
(spec section 4.3 step 3), the squared position tolerance. -/
def combinedThreshold (t : ToleranceProfile) : ℤ :=
  t.position_tolerance * t.position_tolerance

/-- Modelled from the spec: the transient `MatchCandidate` pairing
(spec section 3), carrying the indices and entity ids of both sides and
the computed distance score. -/
structure MatchCandidate where
  oIdx : ℕ
  rIdx : ℕ
  oId : String
  rId : String
  score : ℤ
  deriving DecidableEq

/-- Sort key of a candidate: score first, then the lexicographic entity-id
pair (the spec's tie-break rule), then the index pair as the final
input-order tie-break. -/
def candKey (c : MatchCandidate) :
    Lex (ℤ × Lex (List Char × Lex (List Char × Lex (ℕ × ℕ)))) :=
  toLex (c.score, toLex (c.oId.data, toLex (c.rId.data, toLex (c.oIdx, c.rIdx))))

/-- The candidate processing order: ascending by `candKey`. -/
def candR (a b : MatchCandidate) : Prop := candKey a ≤ candKey b

instance : DecidableRel candR := fun a b =>
  inferInstanceAs (Decidable (candKey a ≤ candKey b))

instance : IsTrans MatchCandidate candR :=
  ⟨fun _ _ _ hab hbc => le_trans hab hbc⟩

instance : IsTotal MatchCandidate candR :=
  ⟨fun a b => le_total (candKey a) (candKey b)⟩

/-- Strict lexicographic order on the entity-id pair of two candidates,
as used by the spec's tie-break rule. -/
def idPairLt (a b : MatchCandidate) : Prop :=
  toLex (a.oId.data, a.rId.data) < toLex (b.oId.data, b.rId.data)

instance : DecidableRel idPairLt := fun a b =>
  inferInstanceAs
    (Decidable (toLex (a.oId.data, a.rId.data) < toLex (b.oId.data, b.rId.data)))

/-- Two candidates conflict when they claim the same original entity or the
same revised entity (spec section 4.3 step 3 skipping rule). -/
def candConflict (a b : MatchCandidate) : Prop :=
  a.oIdx = b.oIdx ∨ a.rIdx = b.rIdx

/-- Two candidates are disjoint when they claim different original entities
and different revised entities. -/
def candDisj (a b : MatchCandidate) : Prop :=
  a.oIdx ≠ b.oIdx ∧ a.rIdx ≠ b.rIdx

/-- The `(entity_type, layer)` bucket of a candidate's original entity
(spec section 5: buckets never share entities). -/
def bucketAtO (o : List GeometryEntity) (c : MatchCandidate) : Option (EntityType × String) :=
  (o[c.oIdx]?).map (fun e => (e.entity_type, e.layer))

/-- Modelled from the spec: the ascending candidate sort of the missing
matcher (spec section 4.3 step 3). -/
def sortCandidates (cs : List MatchCandidate) : List MatchCandidate :=
  cs.insertionSort candR

/-- Modelled from the spec: candidate generation of the missing matcher
(spec section 4.3 steps 1 and 2).  Entities are grouped by `entity_type` then
`layer`; the spatial index is modelled extensionally by its query semantics
(section 4.2 guarantees the expanded-box query never misses a true
candidate), so every same-bucket pair is emitted with its distance score. -/
def allCandidates (o r : List GeometryEntity) (t : ToleranceProfile) : List MatchCandidate :=
  o.enum.flatMap (fun ie =>
    r.enum.filterMap (fun je =>
      if ie.2.entity_type = je.2.entity_type ∧ ie.2.layer = je.2.layer then
        some ⟨ie.1, je.1, ie.2.entity_id, je.2.entity_id, distanceScore t ie.2 je.2⟩
      else none))

/-- One step of the greedy assignment (spec section 4.3 step 3): a candidate
is assigned when it is within tolerance and neither of its entities has
already been claimed; otherwise it is skipped. -/
def greedyStep (τ : ℤ) (ps : List MatchCandidate) (c : MatchCandidate) : List MatchCandidate :=
  if c.score ≤ τ ∧ ∀ p ∈ ps, p.oIdx ≠ c.oIdx ∧ p.rIdx ≠ c.rIdx then ps ++ [c] else ps

/-- Modelled from the spec: the global greedy assignment of the missing
matcher (spec section 4.3 step 3), processing candidates in ascending
`candKey` order. -/
def greedyAssign (τ : ℤ) (cs : List MatchCandidate) : List MatchCandidate :=
  cs.foldl (greedyStep τ) []

/-- Modelled from the spec: the `MatchResult` produced by the missing
matcher (spec section 4.3): assigned pairs plus the unmatched indices of
both sides. -/
structure MatchResult where
  pairs : List MatchCandidate
  unmatched_original : List ℕ
  unmatched_revised : List ℕ
  deriving DecidableEq

/-- Modelled from the spec: the matching pass of the missing matcher
(spec section 4.3 steps 1 to 4) over an original collection and an
already-normalized revised collection. -/
def matchPairs (o r : List GeometryEntity) (t : ToleranceProfile) : MatchResult :=
  let pairs := greedyAssign (combinedThreshold t) (sortCandidates (allCandidates o r t))
  { pairs := pairs
    unmatched_original :=
      (List.range o.length).filter (fun i => pairs.all (fun c => decide (c.oIdx ≠ i)))
    unmatched_revised :=
      (List.range r.length).filter (fun j => pairs.all (fun c => decide (c.rIdx ≠ j))) }

/-- Modelled from the spec: the unchanged classification of an assigned pair
(spec section 4.3 step 4): coincident geometry and zero attribute delta. -/
def unchangedPair (eo er : GeometryEntity) : Bool :=
  decide (eo.vertices = er.vertices) && decide (eo.layer = er.layer) &&
    decide (eo.color = er.color) && decide (eo.text_content = er.text_content)

/-- Modelled from the spec: the `change_type` enumeration of a `DiffRecord`
(spec section 3). -/
inductive ChangeType
  | added
  | removed
  | modified
  | unchanged
  deriving DecidableEq

/-- Modelled from the spec: the missing backend `DiffRecord`
(spec section 3): authoritative entity id, change type, provenance
references and visualization geometry. -/
structure DiffRecord where
  entity_id : String
  change_type : ChangeType
  original_ref : Option String
  revised_ref : Option String
  geometry : List Coord
  deriving DecidableEq

/-- Modelled from the spec: the summary counts of a `DiffResult`
(spec section 4.4). -/
structure DiffSummary where
  added : ℕ
  removed : ℕ
  modified : ℕ
  unchanged : ℕ
  deriving DecidableEq

/-- Modelled from the spec: the missing backend `DiffResult`
(spec section 4.4): summary counts plus the flat ordered record list. -/
structure DiffResult where
  summary : DiffSummary
  records : List DiffRecord
  deriving DecidableEq

/-- Classification of one assigned pair, looking both entities up by index. -/
def isUnchangedAt (o r : List GeometryEntity) (c : MatchCandidate) : Bool :=
  match o[c.oIdx]?, r[c.rIdx]? with
  | some eo, some er => unchangedPair eo er
  | _, _ => false

/-- Record order for the builder: ascending by `entity_id`. -/
def recR (a b : DiffRecord) : Prop := a.entity_id.data ≤ b.entity_id.data

instance : DecidableRel recR := fun a b =>
  inferInstanceAs (Decidable (a.entity_id.data ≤ b.entity_id.data))

instance : IsTrans DiffRecord recR :=
  ⟨fun _ _ _ hab hbc => le_trans hab hbc⟩

instance : IsTotal DiffRecord recR :=
  ⟨fun a b => le_total a.entity_id.data b.entity_id.data⟩

/-- Modelled from the spec: the missing Diff Result Builder
(spec section 4.4).  Counts all four change types; the record list holds
removed records (by original entity id ascending), then added records
(by revised entity id ascending), then modified records (by original entity
id ascending); unchanged entities are counted but omitted from the list. -/
def buildDiff (o r : List GeometryEntity) (mr : MatchResult) : DiffResult :=
  let removedRecs := mr.unmatched_original.filterMap (fun i =>
    (o[i]?).map (fun e =>
      ⟨e.entity_id, ChangeType.removed, some e.entity_id, none, e.vertices⟩))
  let addedRecs := mr.unmatched_revised.filterMap (fun j =>
    (r[j]?).map (fun e =>
      ⟨e.entity_id, ChangeType.added, none, some e.entity_id, e.vertices⟩))
  let modifiedRecs := (mr.pairs.filter (fun c => !(isUnchangedAt o r c))).filterMap (fun c =>
    match o[c.oIdx]?, r[c.rIdx]? with
    | some eo, some er =>
        some ⟨eo.entity_id, ChangeType.modified, some eo.entity_id, some er.entity_id,
          er.vertices⟩
    | _, _ => none)
  { summary :=
      { added := mr.unmatched_revised.length
        removed := mr.unmatched_original.length
        modified := mr.pairs.countP (fun c => !(isUnchangedAt o r c))
        unchanged := mr.pairs.countP (fun c => isUnchangedAt o r c) }
    records :=
      removedRecs.insertionSort recR ++ addedRecs.insertionSort recR ++
        modifiedRecs.insertionSort recR }

/-- Modelled from the spec: the full diff pipeline behind the missing `match`
entry point (spec section 6): normalize, transform the revised collection,
match, build. -/
def computeDiff (o r : List GeometryEntity) (t : ToleranceProfile) : DiffResult :=
  buildDiff o (r.map (transformEntity (normalize o r).1))
    (matchPairs o (r.map (transformEntity (normalize o r).1)) t)

/-- The total change count of a diff result: `modified + removed + added`. -/
def diffChangeSum (d : DiffResult) : ℕ :=
  d.summary.modified + d.summary.removed + d.summary.added

/-- Modelled from the spec: the fatal `ToleranceError` (spec section 7). -/
inductive ToleranceError
  | nonPositiveTolerance
  deriving DecidableEq

/-- A tolerance profile is valid when every tolerance value is positive. -/
def validTolerance (t : ToleranceProfile) : Prop :=
  0 < t.position_tolerance ∧ 0 < t.angle_tolerance

instance : DecidablePred validTolerance := fun t =>
  inferInstanceAs (Decidable (0 < t.position_tolerance ∧ 0 < t.angle_tolerance))

/-- Modelled from the spec: the side-channel diagnostics list returned
alongside a successful result (spec section 7): the normalization severity,
one `InputError` per malformed entity (empty vertex list), and one
`DegenerateGeometryWarning` per degenerate entity. -/
def collectDiagnostics (o r : List GeometryEntity) : List Diagnostic :=
  [(normalize o r).2] ++
    (o ++ r).filterMap (fun e =>
      if e.vertices = [] then some (Diagnostic.inputError e.entity_id) else none) ++
    (o ++ r).filterMap (fun e =>
      if e.vertices ≠ [] ∧ degenerate e then some (Diagnostic.degenerateWarning e.entity_id)
      else none)

/-- Modelled from the spec: the missing `match` entry point (spec section 6;
named `matchEngine` here because `match` is a Lean keyword).  A non-positive
tolerance is the only hard failure; every other input yields a `DiffResult`
plus the side-channel diagnostics. -/
def matchEngine (o r : List GeometryEntity) (t : ToleranceProfile) :
    Except ToleranceError (DiffResult × List Diagnostic) :=
  if validTolerance t then
    Except.ok (computeDiff o r t, collectDiagnostics o r)
  else Except.error ToleranceError.nonPositiveTolerance

/-! ### Frontend embeddings (translated from the TypeScript sources) -/

/-- Change kind of a frontend diff entity
(`frontend/src/types` via `part_007`: "added" | "removed" | "modified"). -/
inductive FEChange
  | added
  | removed
  | modified
  deriving DecidableEq

/-- Frontend `DiffEntity` (`part_007` lines 31-37): id, type string, change
kind, optional label and the polygon's point list.  JS numbers are modelled
as rationals. -/
structure FEDiffEntity where
  entity_id : String
  entity_type : String
  change_type : FEChange
  label : Option String
  polygon : List (ℚ × ℚ)
  deriving DecidableEq

/-- The expression `Math.min(...xs, 0)` from `DiffCanvas` (`part_002` line 26). -/
def jsMinWithZero (xs : List ℚ) : ℚ := xs.foldr min 0

/-- The expression `Math.max(...xs, 100)` from `DiffCanvas` (`part_002` line 27). -/
def jsMaxWith100 (xs : List ℚ) : ℚ := xs.foldr max 100

/-- The point list `combined.flatMap((entity) => entity.polygon.points)` of `DiffCanvas`
(`part_002` line 23). -/
def fePoints (entities : List FEDiffEntity) : List (ℚ × ℚ) :=
  entities.flatMap (fun e => e.polygon)

/-- The `minX` value of `DiffCanvas` (`part_002` line 26, `part_003` line 11). -/
def feMinX (entities : List FEDiffEntity) : ℚ :=
  jsMinWithZero ((fePoints entities).map (fun p => p.1))

/-- The `maxX` value of `DiffCanvas` (`part_002` line 27, `part_003` line 12). -/
def feMaxX (entities : List FEDiffEntity) : ℚ :=
  jsMaxWith100 ((fePoints entities).map (fun p => p.1))

/-- The `minY` value of `DiffCanvas` (`part_002` line 28, `part_003` line 13). -/
def feMinY (entities : List FEDiffEntity) : ℚ :=
  jsMinWithZero ((fePoints entities).map (fun p => p.2))

/-- The `maxY` value of `DiffCanvas` (`part_002` line 29, `part_003` line 14). -/
def feMaxY (entities : List FEDiffEntity) : ℚ :=
  jsMaxWith100 ((fePoints entities).map (fun p => p.2))

/-- The value `width = maxX - minX || 100` of `DiffCanvas` (`part_002` line 31):
the JS `||` falls back to 100 when the difference is (falsy) zero. -/
def feWidth (entities : List FEDiffEntity) : ℚ :=
  let w := feMaxX entities - feMinX entities
  if w = 0 then 100 else w

/-- The value `heightValue = maxY - minY || 100` of `DiffCanvas` (`part_002` line 32). -/
def feHeight (entities : List FEDiffEntity) : ℚ :=
  let h := feMaxY entities - feMinY entities
  if h = 0 then 100 else h

/-- The `padding` constant of `DiffCanvas` (`part_002` line 30). -/
def fePadding : ℚ := 10

/-- Width component of the emitted SVG `viewBox`
(`part_002` line 33: `width + padding * 2`). -/
def feViewBoxWidth (entities : List FEDiffEntity) : ℚ :=
  feWidth entities + fePadding * 2

/-- Height component of the emitted SVG `viewBox`
(`part_002` line 33: `heightValue + padding * 2`). -/
def feViewBoxHeight (entities : List FEDiffEntity) : ℚ :=
  feHeight entities + fePadding * 2

/-- JS runtime error raised by the embedded frontend expressions. -/
inductive JsError
  | typeError
  deriving DecidableEq

/-- Frontend `StoredFile` as used by `DiffViewer.tsx` and `useJobs.ts`:
a `name` plus an optional `kind`. -/
structure StoredFileFE where
  name : String
  kind : Option String
  deriving DecidableEq

/-- Method lookup on the JavaScript String prototype, restricted to the
suffix-test methods: `endsWith` exists, any other spelling (in particular
the lowercase `endswith`) is `undefined`. -/
def jsStringSuffixMethod (methodName : String) : Option (String → String → Bool) :=
  if methodName = "endsWith" then some (fun recv arg => recv.endsWith arg) else none

/-- The predicate of the `reports.find` call in `DiffViewer`
(`DiffViewer.tsx` line 16): `report.kind === "pdf_overlay" ||
report.name.toLowerCase().endswith(".pdf")`.  The second disjunct calls the
`endswith` property of a string; that property is `undefined`, so its
evaluation throws a `TypeError`. -/
def pdfReportPredicate (f : StoredFileFE) : Except JsError Bool :=
  if f.kind = some "pdf_overlay" then Except.ok true
  else
    match jsStringSuffixMethod "endswith" with
    | some fn => Except.ok (fn f.name.toLower ".pdf")
    | none => Except.error JsError.typeError

/-- The JS `Array.prototype.find` with a predicate whose evaluation can throw:
elements are scanned in order and the first thrown error propagates. -/
def findFirstE (p : StoredFileFE → Except JsError Bool) :
    List StoredFileFE → Except JsError (Option StoredFileFE)
  | [] => Except.ok none
  | x :: xs =>
      match p x with
      | Except.error e => Except.error e
      | Except.ok true => Except.ok (some x)
      | Except.ok false => findFirstE p xs

/-- The `pdfReport` computation evaluated while rendering `DiffViewer`
(`DiffViewer.tsx` line 16). -/
def diffViewerPdfReport (reports : List StoredFileFE) : Except JsError (Option StoredFileFE) :=
  findFirstE pdfReportPredicate reports

/-- Frontend `DiffSummary` (`part_007` lines 39-43). -/
structure FEDiffSummary where
  added : ℚ
  removed : ℚ
  modified : ℚ
  deriving DecidableEq

/-- Frontend `DiffPayload` (`part_007` lines 45-49). -/
structure FEDiffPayload where
  job_id : String
  summary : FEDiffSummary
  entities : List FEDiffEntity
  deriving DecidableEq

/-- API job summary as fetched by `refreshJobs` (`useJobs.ts` lines 49-56,
snake-case fields). -/
structure ApiJobSummaryFE where
  job_id : String
  status : String
  progress : ℚ
  created_at : String
  updated_at : String
  deriving DecidableEq

/-- Frontend `JobSummary` (camel-case mapping, `useJobs.ts` lines 50-56). -/
structure JobSummaryFE where
  jobId : String
  status : String
  progress : ℚ
  createdAt : String
  updatedAt : String
  deriving DecidableEq

/-- The `JobsHookState` of `useJobs.ts` (lines 7-19). -/
structure JobsHookState where
  jobs : List JobSummaryFE
  isLoadingJobs : Bool
  jobsError : Option String
  selectedJobId : Option String
  diffPayload : Option FEDiffPayload
  isLoadingDiff : Bool
  diffError : Option String
  isUploading : Bool
  uploadError : Option String
  uploadSuccess : Option String
  jobReports : List StoredFileFE
  deriving DecidableEq

/-- The entry-to-jobs mapping of `refreshJobs` (`useJobs.ts` lines 50-56). -/
def mapApiJobs (entries : List ApiJobSummaryFE) : List JobSummaryFE :=
  entries.map (fun item =>
    { jobId := item.job_id, status := item.status, progress := item.progress,
      createdAt := item.created_at, updatedAt := item.updated_at })

/-- First `setState` of `refreshJobs` (`useJobs.ts` line 42). -/
def refreshJobsBegin (prev : JobsHookState) : JobsHookState :=
  { prev with isLoadingJobs := true, jobsError := none }

/-- Second `setState` of `refreshJobs` on fetch success (`useJobs.ts` lines
58-70).  `prev.selectedJobId && jobIds.has(prev.selectedJobId)` is modelled
with JS string truthiness: the empty string is falsy. -/
def refreshJobsApply (prev : JobsHookState) (jobs : List JobSummaryFE) : JobsHookState :=
  let jobIds := jobs.map (fun j => j.jobId)
  let selectedJobId : Option String :=
    match prev.selectedJobId with
    | some id => if id ≠ "" ∧ id ∈ jobIds then some id else none
    | none => none
  { prev with
      jobs := jobs
      isLoadingJobs := false
      jobsError := none
      selectedJobId := selectedJobId
      diffPayload := if selectedJobId.isSome then prev.diffPayload else none
      diffError := if selectedJobId.isSome then prev.diffError else none
      jobReports := if selectedJobId.isSome then prev.jobReports else [] }

/-- The complete success path of `refreshJobs` (`useJobs.ts` lines 41-75):
the loading transition followed by the fetched-list application. -/
def refreshJobsSuccess (prev : JobsHookState) (entries : List ApiJobSummaryFE) :
    JobsHookState :=
  refreshJobsApply (refreshJobsBegin prev) (mapApiJobs entries)

/-- A sample wall segment used by the concrete witnesses. -/
def sampleWallA : GeometryEntity :=
  ⟨"a", EntityType.line, "WALL", 1, [(0, 0), (10, 0)], none, Source.original⟩

/-- A second sample wall segment used by the concrete witnesses. -/
def sampleWallB : GeometryEntity :=
  ⟨"b", EntityType.line, "WALL", 1, [(0, 5), (10, 5)], none, Source.original⟩

/-- A sample tolerance profile used by the concrete witnesses. -/
def sampleTol : ToleranceProfile := ⟨3, 1, false⟩

/-! ## Theorems -/

/-- The JS seed 0 bounds `Math.min(...xs, 0)` from above. -/
theorem jsMinWithZero_nonpos (xs : List ℚ) : jsMinWithZero xs ≤ 0 := by
  induction xs with
  | nil => simp [jsMinWithZero]
  | cons x l ih =>
      simpa [jsMinWithZero] using le_trans (min_le_right x (jsMinWithZero l)) ih

/-- The JS seed 100 bounds `Math.max(...xs, 100)` from below. -/
theorem jsMaxWith100_ge (xs : List ℚ) : 100 ≤ jsMaxWith100 xs := by
  induction xs with
  | nil => simp [jsMaxWith100]
  | cons x l ih =>
      simpa [jsMaxWith100] using le_trans ih (le_max_right x (jsMaxWith100 l))

/-- C9: for every list of diff entities, the `DiffCanvas` bounding box
satisfies `minX ≤ 0`, `maxX ≥ 100`, `minY ≤ 0`, `maxY ≥ 100`, hence both
`width` and `heightValue` are at least 100, the `|| 100` fallback branches
are unreachable (the computed values equal the plain differences), and the
emitted SVG viewBox has strictly positive width and height. -/
theorem diffCanvas_viewBox_bounds (es : List FEDiffEntity) :
    feMinX es ≤ 0 ∧ 100 ≤ feMaxX es ∧ feMinY es ≤ 0 ∧ 100 ≤ feMaxY es ∧
      feWidth es = feMaxX es - feMinX es ∧ 100 ≤ feWidth es ∧
      feHeight es = feMaxY es - feMinY es ∧ 100 ≤ feHeight es ∧
      0 < feViewBoxWidth es ∧ 0 < feViewBoxHeight es := by
  have hminx : feMinX es ≤ 0 := jsMinWithZero_nonpos _
  have hmaxx : 100 ≤ feMaxX es := jsMaxWith100_ge _
  have hminy : feMinY es ≤ 0 := jsMinWithZero_nonpos _
  have hmaxy : 100 ≤ feMaxY es := jsMaxWith100_ge _
  have hw : (100 : ℚ) ≤ feMaxX es - feMinX es := by linarith
  have hh : (100 : ℚ) ≤ feMaxY es - feMinY es := by linarith
  have hwne : feMaxX es - feMinX es ≠ 0 := by positivity
  have hhne : feMaxY es - feMinY es ≠ 0 := by positivity
  have hweq : feWidth es = feMaxX es - feMinX es := by
    simp only [feWidth, if_neg hwne]
  have hheq : feHeight es = feMaxY es - feMinY es := by
    simp only [feHeight, if_neg hhne]
  refine ⟨hminx, hmaxx, hminy, hmaxy, hweq, ?_, hheq, ?_, ?_, ?_⟩
  · rw [hweq]; exact hw
  · rw [hheq]; exact hh
  · simp only [feViewBoxWidth, fePadding, hweq]; linarith
  · simp only [feViewBoxHeight, fePadding, hheq]; linarith

/-- Witness for C9 at the empty entity list. -/
theorem diffCanvas_viewBox_bounds_witness :
    feMinX [] ≤ 0 ∧ 100 ≤ feMaxX [] ∧ feMinY [] ≤ 0 ∧ 100 ≤ feMaxY [] ∧
      feWidth [] = feMaxX [] - feMinX [] ∧ 100 ≤ feWidth [] ∧
      feHeight [] = feMaxY [] - feMinY [] ∧ 100 ≤ feHeight [] ∧
      0 < feViewBoxWidth [] ∧ 0 < feViewBoxHeight [] :=
  diffCanvas_viewBox_bounds []

/-- C8: when the first report scanned by the `DiffViewer` `find` call has a
`kind` different from `"pdf_overlay"`, evaluating the predicate reaches
`report.name.toLowerCase().endswith(".pdf")`; `endswith` is not a method of
JavaScript strings, so rendering throws a `TypeError` instead of returning
`false`. -/
theorem diffViewer_pdfReport_typeError (reports : List StoredFileFE)
    (f : StoredFileFE) (rest : List StoredFileFE)
    (hcons : reports = f :: rest) (hkind : f.kind ≠ some "pdf_overlay") :
    diffViewerPdfReport reports = Except.error JsError.typeError := by
  subst hcons
  have hm : jsStringSuffixMethod "endswith" = none := rfl
  have hp : pdfReportPredicate f = Except.error JsError.typeError := by
    simp [pdfReportPredicate, hm, if_neg hkind]
  simp [diffViewerPdfReport, findFirstE, hp]

/-- Witness for C8: a one-element report list whose head is not a pdf
overlay kind. -/
theorem diffViewer_pdfReport_typeError_witness :
    diffViewerPdfReport [⟨"overlay.pdf", some "overlay"⟩] =
      Except.error JsError.typeError :=
  diffViewer_pdfReport_typeError _ ⟨"overlay.pdf", some "overlay"⟩ [] rfl (by decide)

/-- The fetched list becomes the new `jobs` field. -/
theorem refreshJobsSuccess_jobs (prev : JobsHookState) (entries : List ApiJobSummaryFE) :
    (refreshJobsSuccess prev entries).jobs = mapApiJobs entries := rfl

/-- The selection kept by a successful refresh, as written in the source. -/
theorem refreshJobsSuccess_selectedJobId (prev : JobsHookState)
    (entries : List ApiJobSummaryFE) :
    (refreshJobsSuccess prev entries).selectedJobId =
      match prev.selectedJobId with
      | some id =>
          if id ≠ "" ∧ id ∈ (mapApiJobs entries).map (fun j => j.jobId) then some id else none
      | none => none := rfl

/-- The diff payload survives exactly when the selection survives. -/
theorem refreshJobsSuccess_diffPayload (prev : JobsHookState)
    (entries : List ApiJobSummaryFE) :
    (refreshJobsSuccess prev entries).diffPayload =
      if (refreshJobsSuccess prev entries).selectedJobId.isSome then prev.diffPayload
      else none := rfl

/-- The diff error survives exactly when the selection survives. -/
theorem refreshJobsSuccess_diffError (prev : JobsHookState)
    (entries : List ApiJobSummaryFE) :
    (refreshJobsSuccess prev entries).diffError =
      if (refreshJobsSuccess prev entries).selectedJobId.isSome then prev.diffError
      else none := rfl

/-- The job reports survive exactly when the selection survives. -/
theorem refreshJobsSuccess_jobReports (prev : JobsHookState)
    (entries : List ApiJobSummaryFE) :
    (refreshJobsSuccess prev entries).jobReports =
      if (refreshJobsSuccess prev entries).selectedJobId.isSome then prev.jobReports
      else [] := rfl

/-- C10: after a successful `refreshJobs`, the selected job id is either
`null` or the id of a job in the freshly fetched list; and whenever the
refresh leaves the selection `null`, the diff payload, the diff error and the
job reports are cleared. -/
theorem refreshJobs_selection_invariant (prev : JobsHookState)
    (entries : List ApiJobSummaryFE) :
    ((refreshJobsSuccess prev entries).selectedJobId = none ∨
      ∃ j ∈ (refreshJobsSuccess prev entries).jobs,
        some j.jobId = (refreshJobsSuccess prev entries).selectedJobId) ∧
      ((refreshJobsSuccess prev entries).selectedJobId = none →
        (refreshJobsSuccess prev entries).diffPayload = none ∧
          (refreshJobsSuccess prev entries).diffError = none ∧
          (refreshJobsSuccess prev entries).jobReports = []) := by
  constructor
  · rw [refreshJobsSuccess_selectedJobId]
    cases hsel : prev.selectedJobId with
    | none => exact Or.inl rfl
    | some id =>
        by_cases hid : id ≠ "" ∧ id ∈ (mapApiJobs entries).map (fun j => j.jobId)
        · right
          obtain ⟨j, hj, hjid⟩ := List.mem_map.mp hid.2
          refine ⟨j, ?_, ?_⟩
          · rw [refreshJobsSuccess_jobs]; exact hj
          · simp only [if_pos hid, hjid]
        · exact Or.inl (if_neg hid)
  · intro h
    refine ⟨?_, ?_, ?_⟩
    · rw [refreshJobsSuccess_diffPayload, h]; rfl
    · rw [refreshJobsSuccess_diffError, h]; rfl
    · rw [refreshJobsSuccess_jobReports, h]; rfl

/-- Witness for C10: a state whose selected job disappears from the fetched
list is fully reset. -/
theorem refreshJobs_selection_invariant_witness :
    (refreshJobsSuccess
        ⟨[], false, none, some "job-1", some ⟨"job-1", ⟨1, 2, 3⟩, []⟩, false,
          some "err", false, none, none, [⟨"r.pdf", none⟩]⟩ []).diffPayload = none ∧
      (refreshJobsSuccess
          ⟨[], false, none, some "job-1", some ⟨"job-1", ⟨1, 2, 3⟩, []⟩, false,
            some "err", false, none, none, [⟨"r.pdf", none⟩]⟩ []).diffError = none ∧
      (refreshJobsSuccess
          ⟨[], false, none, some "job-1", some ⟨"job-1", ⟨1, 2, 3⟩, []⟩, false,
            some "err", false, none, none, [⟨"r.pdf", none⟩]⟩ []).jobReports = [] :=
  (refreshJobs_selection_invariant _ []).2 rfl

/-- A transform produced by the grid fit always has a non-zero scale. -/
theorem gridFit_scale_ne_zero (o r : List GeometryEntity) (nt : NormalizationTransform)
    (h : gridFit o r = some nt) : nt.scale ≠ 0 := by
  unfold gridFit at h
  split at h
  · dsimp only at h
    split at h
    · rename_i hc
      obtain ⟨hdR, hdO, hdvd⟩ := hc
      have hle := Nat.le_of_dvd (Nat.pos_of_ne_zero hdO) hdvd
      have hdiv := (Nat.div_ne_zero_iff hdR).mpr hle
      have hnt := Option.some_inj.mp h
      rw [← hnt]
      show ¬((spacingN _ _ / spacingN _ _ : ℕ) : ℤ) = 0
      exact_mod_cast hdiv
    · exact Option.noConfusion h
  · exact Option.noConfusion h

/-- A transform with non-zero scale acts injectively on points. -/
theorem applyTransform_injective (nt : NormalizationTransform) (h : nt.scale ≠ 0) :
    Function.Injective (applyTransform nt) := by
  intro p q hpq
  simp only [applyTransform, Prod.mk.injEq] at hpq
  obtain ⟨h1, h2⟩ := hpq
  have hx : nt.scale * p.1 = nt.scale * q.1 := by linarith
  have hy : nt.scale * p.2 = nt.scale * q.2 := by linarith
  exact Prod.ext (mul_left_cancel₀ h hx) (mul_left_cancel₀ h hy)

/-- The bounding-box fallback always has scale 1. -/
theorem bboxFallbackT_scale (o r : List GeometryEntity) : (bboxFallbackT o r).scale = 1 := by
  unfold bboxFallbackT
  rcases bboxSum o with _ | co <;> rcases bboxSum r with _ | cr <;> rfl

/-- C5: normalization is total: for every pair of collections it returns an
invertible transform (non-zero scale, injective action) together with one of
the three severities `grid-fit`, `bbox-fallback`, `identity-fallback`; and
collections with fewer than 2 entities take the identity transform with the
identity-fallback diagnostic. -/
theorem normalize_total_invertible (o r : List GeometryEntity) :
    (normalize o r).1.scale ≠ 0 ∧
      Function.Injective (applyTransform (normalize o r).1) ∧
      ((normalize o r).2 = Diagnostic.gridFit ∨ (normalize o r).2 = Diagnostic.bboxFallback ∨
        (normalize o r).2 = Diagnostic.identityFallback) ∧
      ((o.length < 2 ∨ r.length < 2) →
        normalize o r = (identityTransform, Diagnostic.identityFallback)) := by
  by_cases hlen : o.length < 2 ∨ r.length < 2
  · have hnorm : normalize o r = (identityTransform, Diagnostic.identityFallback) := by
      simp [normalize, hlen]
    rw [hnorm]
    exact ⟨by decide, applyTransform_injective _ (by decide), Or.inr (Or.inr rfl), fun _ => rfl⟩
  · cases hg : gridFit o r with
    | some nt =>
        have hnorm : normalize o r = (nt, Diagnostic.gridFit) := by
          simp [normalize, hlen, hg]
        rw [hnorm]
        have hs := gridFit_scale_ne_zero o r nt hg
        exact ⟨hs, applyTransform_injective _ hs, Or.inl rfl, fun habs => absurd habs hlen⟩
    | none =>
        have hnorm : normalize o r = (bboxFallbackT o r, Diagnostic.bboxFallback) := by
          simp [normalize, hlen, hg]
        rw [hnorm]
        have hs : (bboxFallbackT o r).scale ≠ 0 := by
          rw [bboxFallbackT_scale]; decide
        exact ⟨hs, applyTransform_injective _ hs, Or.inr (Or.inl rfl), fun habs => absurd habs hlen⟩

/-- Witness for C5 at two empty collections (the identity-fallback edge). -/
theorem normalize_total_invertible_witness :
    normalize [] [] = (identityTransform, Diagnostic.identityFallback) :=
  (normalize_total_invertible [] []).2.2.2 (Or.inl (by decide))

/-- C7: `match` fails if and only if the tolerance profile carries a
non-positive tolerance value; for every other input, however degraded, it
succeeds and returns the diff result together with the side-channel
diagnostics list, in which a malformed entity (empty vertex list) is
recorded as an `InputError` rather than thrown. -/
theorem matchEngine_error_iff (o r : List GeometryEntity) (t : ToleranceProfile) :
    ((∃ e, matchEngine o r t = Except.error e) ↔
      t.position_tolerance ≤ 0 ∨ t.angle_tolerance ≤ 0) ∧
      (0 < t.position_tolerance → 0 < t.angle_tolerance →
        matchEngine o r t = Except.ok (computeDiff o r t, collectDiagnostics o r)) ∧
      (∀ e ∈ o ++ r, e.vertices = [] →
        Diagnostic.inputError e.entity_id ∈ collectDiagnostics o r) := by
  refine ⟨?_, ?_, ?_⟩
  · by_cases hv : validTolerance t
    · constructor
      · rintro ⟨e, he⟩
        rw [matchEngine, if_pos hv] at he
        exact absurd he (by simp)
      · intro hbad
        obtain ⟨h1, h2⟩ := hv
        rcases hbad with hb | hb <;> omega
    · constructor
      · intro _
        have : ¬(0 < t.position_tolerance ∧ 0 < t.angle_tolerance) := hv
        omega
      · intro _
        exact ⟨ToleranceError.nonPositiveTolerance, by rw [matchEngine, if_neg hv]⟩
  · intro h1 h2
    rw [matchEngine, if_pos ⟨h1, h2⟩]
  · intro e he hve
    have hmem : Diagnostic.inputError e.entity_id ∈
        (o ++ r).filterMap (fun e =>
          if e.vertices = [] then some (Diagnostic.inputError e.entity_id) else none) :=
      List.mem_filterMap.mpr ⟨e, he, by rw [if_pos hve]⟩
    unfold collectDiagnostics
    exact List.mem_append_left _ (List.mem_append_right _ hmem)

/-- Witness for C7: a valid profile yields a successful call, and a
non-positive one fails. -/
theorem matchEngine_error_iff_witness :
    matchEngine [] [] ⟨1, 1, false⟩ =
      Except.ok (computeDiff [] [] ⟨1, 1, false⟩, collectDiagnostics [] []) :=
  (matchEngine_error_iff [] [] ⟨1, 1, false⟩).2.1 (by decide) (by decide)

/-! ### Lexicographic-key lemmas for the candidate order -/

/-- Build a strict comparison of two 5-component lexicographic keys from a
componentwise description. -/
theorem lex5_lt {s1 s2 : ℤ} {a1 a2 b1 b2 : List Char} {m1 m2 k1 k2 : ℕ}
    (h : s1 < s2 ∨ (s1 = s2 ∧ (a1 < a2 ∨ (a1 = a2 ∧ (b1 < b2 ∨ (b1 = b2 ∧
      (m1 < m2 ∨ (m1 = m2 ∧ k1 < k2)))))))) :
    toLex (s1, toLex (a1, toLex (b1, toLex (m1, k1)))) <
      toLex (s2, toLex (a2, toLex (b2, toLex (m2, k2)))) := by
  apply (Prod.Lex.lt_iff _ _).mpr
  rcases h with h | ⟨hs, h⟩
  · exact Or.inl h
  refine Or.inr ⟨hs, ?_⟩
  apply (Prod.Lex.lt_iff _ _).mpr
  rcases h with h | ⟨ha, h⟩
  · exact Or.inl h
  refine Or.inr ⟨ha, ?_⟩
  apply (Prod.Lex.lt_iff _ _).mpr
  rcases h with h | ⟨hb, h⟩
  · exact Or.inl h
  refine Or.inr ⟨hb, ?_⟩
  exact (Prod.Lex.lt_iff _ _).mpr h

/-- The first component of the 5-component key is monotone. -/
theorem lex5_le_score {s1 s2 : ℤ} {x y : Lex (List Char × Lex (List Char × Lex (ℕ × ℕ)))}
    (h : toLex (s1, x) ≤ toLex (s2, y)) : s1 ≤ s2 := by
  rcases (Prod.Lex.le_iff _ _).mp h with h | ⟨hs, _⟩
  · exact le_of_lt h
  · exact le_of_eq hs

/-- The candidate order respects scores. -/
theorem candR_score_le (a b : MatchCandidate) (h : candR a b) : a.score ≤ b.score :=
  lex5_le_score h

/-- The sorted candidate stream really is sorted. -/
theorem sortCandidates_sorted (cs : List MatchCandidate) :
    List.Sorted candR (sortCandidates cs) :=
  List.sorted_insertionSort candR cs

/-- Sorting the candidates loses or duplicates none of them. -/
theorem sortCandidates_perm (cs : List MatchCandidate) :
    (sortCandidates cs).Perm cs :=
  List.perm_insertionSort candR cs

/-! ### Score lemmas -/

/-- Squared distance of a point to itself vanishes. -/
theorem sqDist_self (p : Coord) : sqDist p p = 0 := by
  simp [sqDist]

/-- Squared distances are non-negative. -/
theorem sqDist_nonneg (p q : Coord) : 0 ≤ sqDist p q :=
  add_nonneg (mul_self_nonneg _) (mul_self_nonneg _)

/-- The vertex-alignment cost of a list zipped with itself vanishes. -/
theorem zipSelf_sqDist_sum (vs : List Coord) :
    ((vs.zip vs).map (fun pq => sqDist pq.1 pq.2)).sum = 0 := by
  induction vs with
  | nil => rfl
  | cons v tl ih => simp [List.zip_cons_cons, sqDist_self, ih]

/-- The vertex-alignment cost of an entity against itself vanishes. -/
theorem vertexCost_self (e : GeometryEntity) : vertexCost e e = 0 := by
  simp [vertexCost, zipSelf_sqDist_sum]

/-- Vertex-alignment costs are non-negative. -/
theorem vertexCost_nonneg (a b : GeometryEntity) : 0 ≤ vertexCost a b := by
  unfold vertexCost
  split
  · exact le_refl 0
  · refine List.sum_nonneg ?_
    intro x hx
    obtain ⟨pq, _, rfl⟩ := List.mem_map.mp hx
    exact sqDist_nonneg _ _

/-- The attribute penalty of an entity against itself vanishes. -/
theorem attrPenalty_self (t : ToleranceProfile) (e : GeometryEntity) :
    attrPenalty t e e = 0 := by
  simp [attrPenalty]

/-- Attribute penalties are non-negative. -/
theorem attrPenalty_nonneg (t : ToleranceProfile) (a b : GeometryEntity) :
    0 ≤ attrPenalty t a b := by
  unfold attrPenalty
  split <;> decide

/-- The distance score of an entity against itself vanishes. -/
theorem distanceScore_self (t : ToleranceProfile) (e : GeometryEntity) :
    distanceScore t e e = 0 := by
  simp [distanceScore, sqDist_self, vertexCost_self, attrPenalty_self]

/-- Distance scores are non-negative. -/
theorem distanceScore_nonneg (t : ToleranceProfile) (a b : GeometryEntity) :
    0 ≤ distanceScore t a b := by
  unfold distanceScore
  have h1 := sqDist_nonneg (centroid a.vertices) (centroid b.vertices)
  have h2 := vertexCost_nonneg a b
  have h3 := attrPenalty_nonneg t a b
  linarith

/-- The distance score only reads the `attribute_strict` flag of the
profile. -/
theorem distanceScore_congr {t1 t2 : ToleranceProfile}
    (h : t1.attribute_strict = t2.attribute_strict) (a b : GeometryEntity) :
    distanceScore t1 a b = distanceScore t2 a b := by
  simp [distanceScore, attrPenalty, h]

/-! ### Greedy-assignment basics -/

/-- The assigning branch of one greedy step. -/
theorem greedyStep_pos (τ : ℤ) (ps : List MatchCandidate) (c : MatchCandidate)
    (h : c.score ≤ τ ∧ ∀ p ∈ ps, p.oIdx ≠ c.oIdx ∧ p.rIdx ≠ c.rIdx) :
    greedyStep τ ps c = ps ++ [c] := by
  unfold greedyStep
  exact if_pos h

/-- The skipping branch of one greedy step. -/
theorem greedyStep_neg (τ : ℤ) (ps : List MatchCandidate) (c : MatchCandidate)
    (h : ¬(c.score ≤ τ ∧ ∀ p ∈ ps, p.oIdx ≠ c.oIdx ∧ p.rIdx ≠ c.rIdx)) :
    greedyStep τ ps c = ps := by
  unfold greedyStep
  exact if_neg h

/-- The greedy fold only appends to its state. -/
theorem greedy_extend (τ : ℤ) :
    ∀ (cs : List MatchCandidate) (st : List MatchCandidate),
      ∃ e, cs.foldl (greedyStep τ) st = st ++ e := by
  intro cs
  induction cs with
  | nil => intro st; exact ⟨[], by simp⟩
  | cons c rest ih =>
      intro st
      rw [List.foldl_cons]
      by_cases hcond : c.score ≤ τ ∧ ∀ p ∈ st, p.oIdx ≠ c.oIdx ∧ p.rIdx ≠ c.rIdx
      · rw [greedyStep_pos τ st c hcond]
        obtain ⟨e, he⟩ := ih (st ++ [c])
        exact ⟨[c] ++ e, by rw [he, List.append_assoc]⟩
      · rw [greedyStep_neg τ st c hcond]
        exact ih st

/-- Everything the greedy fold outputs came from its state or its input. -/
theorem greedy_mem (τ : ℤ) :
    ∀ (cs st : List MatchCandidate) (x : MatchCandidate),
      x ∈ cs.foldl (greedyStep τ) st → x ∈ st ∨ x ∈ cs := by
  intro cs
  induction cs with
  | nil => intro st x hx; exact Or.inl hx
  | cons c rest ih =>
      intro st x hx
      rw [List.foldl_cons] at hx
      rcases ih _ x hx with h | h
      · by_cases hcond : c.score ≤ τ ∧ ∀ p ∈ st, p.oIdx ≠ c.oIdx ∧ p.rIdx ≠ c.rIdx
        · rw [greedyStep_pos τ st c hcond] at h
          rcases List.mem_append.mp h with h | h
          · exact Or.inl h
          · simp only [List.mem_singleton] at h
            exact Or.inr (by simp [h])
        · rw [greedyStep_neg τ st c hcond] at h
          exact Or.inl h
      · exact Or.inr (List.mem_cons_of_mem _ h)

/-- When every pending candidate exceeds the threshold, the greedy fold is
inert. -/
theorem greedy_skip_all (τ : ℤ) :
    ∀ (cs st : List MatchCandidate), (∀ c ∈ cs, ¬(c.score ≤ τ)) →
      cs.foldl (greedyStep τ) st = st := by
  intro cs
  induction cs with
  | nil => intro st _; rfl
  | cons c rest ih =>
      intro st hall
      rw [List.foldl_cons,
        greedyStep_neg τ st c (fun hcontra => hall c (List.mem_cons_self c rest) hcontra.1)]
      exact ih st (fun x hx => hall x (List.mem_cons_of_mem _ hx))

/-- The greedy fold keeps the claimed original and revised entities pairwise
distinct. -/
theorem greedy_disjoint (τ : ℤ) :
    ∀ (cs st : List MatchCandidate), List.Pairwise candDisj st →
      List.Pairwise candDisj (cs.foldl (greedyStep τ) st) := by
  intro cs
  induction cs with
  | nil => intro st h; exact h
  | cons c rest ih =>
      intro st hst
      rw [List.foldl_cons]
      refine ih _ ?_
      by_cases hcond : c.score ≤ τ ∧ ∀ p ∈ st, p.oIdx ≠ c.oIdx ∧ p.rIdx ≠ c.rIdx
      · rw [greedyStep_pos τ st c hcond]
        refine List.pairwise_append.mpr ⟨hst, List.pairwise_singleton _ _, ?_⟩
        intro a ha b hb
        simp only [List.mem_singleton] at hb
        subst hb
        exact hcond.2 a ha
      · rw [greedyStep_neg τ st c hcond]
        exact hst

/-- A sorted greedy run under a smaller threshold is a prefix of the run
under a larger one. -/
theorem greedy_mono (τ τ' : ℤ) (hττ : τ ≤ τ') :
    ∀ (cs : List MatchCandidate), List.Pairwise candR cs →
      ∀ st, ∃ e, cs.foldl (greedyStep τ') st = cs.foldl (greedyStep τ) st ++ e := by
  intro cs
  induction cs with
  | nil => intro _ st; exact ⟨[], by simp⟩
  | cons c rest ih =>
      intro hp st
      have hp' := List.pairwise_cons.mp hp
      by_cases hc : c.score ≤ τ
      · have hstep : greedyStep τ' st c = greedyStep τ st c := by
          by_cases hfree : ∀ p ∈ st, p.oIdx ≠ c.oIdx ∧ p.rIdx ≠ c.rIdx
          · rw [greedyStep_pos τ' st c ⟨le_trans hc hττ, hfree⟩,
              greedyStep_pos τ st c ⟨hc, hfree⟩]
          · rw [greedyStep_neg τ' st c (fun hx => hfree hx.2),
              greedyStep_neg τ st c (fun hx => hfree hx.2)]
        rw [List.foldl_cons, List.foldl_cons, hstep]
        exact ih hp'.2 _
      · have hrest : ∀ x ∈ rest, ¬(x.score ≤ τ) := by
          intro x hx hle
          exact hc (le_trans (candR_score_le c x (hp'.1 x hx)) hle)
        have hτrun : (c :: rest).foldl (greedyStep τ) st = st := by
          rw [List.foldl_cons, greedyStep_neg τ st c (fun hx => hc hx.1)]
          exact greedy_skip_all τ rest st hrest
        rw [hτrun]
        exact greedy_extend τ' (c :: rest) st

/-! ### Candidate and pipeline plumbing -/

/-- The pairs of a matching pass are the greedy assignment over the sorted
candidate stream. -/
theorem matchPairs_pairs (o r : List GeometryEntity) (t : ToleranceProfile) :
    (matchPairs o r t).pairs =
      greedyAssign (combinedThreshold t) (sortCandidates (allCandidates o r t)) := rfl

/-- Unmatched originals are the indices not claimed by any pair. -/
theorem matchPairs_unmatchedO (o r : List GeometryEntity) (t : ToleranceProfile) :
    (matchPairs o r t).unmatched_original =
      (List.range o.length).filter
        (fun i => (matchPairs o r t).pairs.all (fun c => decide (c.oIdx ≠ i))) := rfl

/-- Unmatched revised entities are the indices not claimed by any pair. -/
theorem matchPairs_unmatchedR (o r : List GeometryEntity) (t : ToleranceProfile) :
    (matchPairs o r t).unmatched_revised =
      (List.range r.length).filter
        (fun j => (matchPairs o r t).pairs.all (fun c => decide (c.rIdx ≠ j))) := rfl

/-- Unpacking membership in the candidate stream: every candidate comes from
a same-type, same-layer pair of entities of the two collections, carries
their ids and their distance score. -/
theorem mem_allCandidates {o r : List GeometryEntity} {t : ToleranceProfile}
    {c : MatchCandidate} (h : c ∈ allCandidates o r t) :
    ∃ eo er, o[c.oIdx]? = some eo ∧ r[c.rIdx]? = some er ∧
      eo.entity_type = er.entity_type ∧ eo.layer = er.layer ∧
      c.oId = eo.entity_id ∧ c.rId = er.entity_id ∧ c.score = distanceScore t eo er := by
  unfold allCandidates at h
  obtain ⟨ie, hie, hmem⟩ := List.mem_flatMap.mp h
  obtain ⟨je, hje, heq⟩ := List.mem_filterMap.mp hmem
  by_cases hb : ie.2.entity_type = je.2.entity_type ∧ ie.2.layer = je.2.layer
  · rw [if_pos hb] at heq
    have hc := Option.some_inj.mp heq
    subst hc
    exact ⟨ie.2, je.2, List.mem_enum_iff_getElem?.mp hie, List.mem_enum_iff_getElem?.mp hje,
      hb.1, hb.2, rfl, rfl, rfl⟩
  · rw [if_neg hb] at heq
    exact Option.noConfusion heq

/-- Every entity is a zero-score candidate against itself in a self-diff. -/
theorem diag_mem_allCandidates {o : List GeometryEntity} {t : ToleranceProfile}
    {i : ℕ} {e : GeometryEntity} (h : o[i]? = some e) :
    (⟨i, i, e.entity_id, e.entity_id, 0⟩ : MatchCandidate) ∈ allCandidates o o t := by
  unfold allCandidates
  refine List.mem_flatMap.mpr ⟨(i, e), List.mem_enum_iff_getElem?.mpr h, ?_⟩
  refine List.mem_filterMap.mpr ⟨(i, e), List.mem_enum_iff_getElem?.mpr h, ?_⟩
  rw [if_pos ⟨rfl, rfl⟩, distanceScore_self]

/-- The identity transform fixes every point. -/
theorem applyTransform_id (p : Coord) : applyTransform identityTransform p = p := by
  simp [applyTransform, identityTransform]

/-- The identity transform fixes every entity. -/
theorem transformEntity_id (e : GeometryEntity) : transformEntity identityTransform e = e := by
  unfold transformEntity
  rw [show applyTransform identityTransform = fun p : Coord => p from funext applyTransform_id,
    List.map_id']

/-- A successful grid fit of a collection against itself is the identity. -/
theorem gridFit_self (C : List GeometryEntity) (nt : NormalizationTransform)
    (h : gridFit C C = some nt) : nt = identityTransform := by
  unfold gridFit at h
  split at h
  · rename_i po qo tailo pr qr tailr h1 h2
    rw [h1] at h2
    injection h2 with hpo h2
    injection h2 with hqo _
    subst hpo
    subst hqo
    dsimp only at h
    split at h
    · rename_i hc
      have hdiv : spacingN po qo / spacingN po qo = 1 :=
        Nat.div_self (Nat.pos_of_ne_zero hc.1)
      have hnt := Option.some_inj.mp h
      rw [← hnt]
      simp [identityTransform, hdiv]
    · exact Option.noConfusion h
  · exact Option.noConfusion h

/-- The bounding-box fallback of a collection against itself is the
identity. -/
theorem bboxFallbackT_self (C : List GeometryEntity) :
    bboxFallbackT C C = identityTransform := by
  unfold bboxFallbackT
  rcases hb : bboxSum C with _ | co
  · rfl
  · simp [identityTransform]

/-- Normalizing a collection against itself yields the identity transform. -/
theorem normalize_self_fst (C : List GeometryEntity) :
    (normalize C C).1 = identityTransform := by
  unfold normalize
  by_cases hlen : C.length < 2 ∨ C.length < 2
  · rw [if_pos hlen]
  · rw [if_neg hlen]
    cases hg : gridFit C C with
    | some nt => simp [gridFit_self C nt hg]
    | none => simp [bboxFallbackT_self]

/-- In a self-diff the normalized revised collection is the collection
itself. -/
theorem map_transformEntity_self (C : List GeometryEntity) :
    C.map (transformEntity (normalize C C).1) = C := by
  rw [normalize_self_fst,
    show transformEntity identityTransform = fun e => e from funext transformEntity_id,
    List.map_id']

/-- An entity is unchanged against itself. -/
theorem unchangedPair_self (e : GeometryEntity) : unchangedPair e e = true := by
  simp [unchangedPair]

/-- C2: the Matcher never pairs an original entity with a revised entity of
a different `entity_type` or a different `layer`: every assigned pair claims
in-range indices, and the two entities at those indices agree on type and
layer. -/
theorem matcher_layer_type_isolation (o r : List GeometryEntity) (t : ToleranceProfile)
    (c : MatchCandidate) (h : c ∈ (matchPairs o r t).pairs) :
    c.oIdx < o.length ∧ c.rIdx < r.length ∧
      ∀ eo er, o[c.oIdx]? = some eo → r[c.rIdx]? = some er →
        eo.entity_type = er.entity_type ∧ eo.layer = er.layer := by
  have hc : c ∈ allCandidates o r t := by
    rw [matchPairs_pairs] at h
    rcases greedy_mem _ _ _ _ h with h0 | h0
    · cases h0
    · exact (sortCandidates_perm _).subset h0
  obtain ⟨eo, er, ho, hr, hty, hly, _, _, _⟩ := mem_allCandidates hc
  refine ⟨(List.getElem?_eq_some_iff.mp ho).1, (List.getElem?_eq_some_iff.mp hr).1, ?_⟩
  intro eo' er' ho' hr'
  rw [ho] at ho'
  rw [hr] at hr'
  cases Option.some_inj.mp ho'
  cases Option.some_inj.mp hr'
  exact ⟨hty, hly⟩

/-! ### Counting lemmas -/

/-- Filtering one present element out of a duplicate-free list shortens it
by exactly one. -/
theorem filter_ne_length {l : List ℕ} {a : ℕ} (hnd : l.Nodup) (ha : a ∈ l) :
    (l.filter (fun x => decide (a ≠ x))).length + 1 = l.length := by
  induction l with
  | nil => cases ha
  | cons b bs ih =>
      rw [List.nodup_cons] at hnd
      rcases List.mem_cons.mp ha with h | h
      · subst h
        rw [List.filter_cons, if_neg (by simp)]
        have hall : bs.filter (fun x => decide (a ≠ x)) = bs := by
          rw [List.filter_eq_self]
          intro x hx
          simp only [decide_eq_true_eq]
          intro hax
          exact hnd.1 (by rw [hax]; exact hx)
        rw [hall, List.length_cons]
      · have hab : a ≠ b := fun heq => hnd.1 (heq ▸ h)
        have hih := ih hnd.2 h
        rw [List.filter_cons, if_pos (by simpa using hab)]
        simp only [List.length_cons]
        omega

/-- Appending freshly claimed, pairwise-distinct, in-range indices (under a
projection `f`) to a pair list removes exactly that many indices from the
unmatched filter. -/
theorem unmatched_count_extend (f : MatchCandidate → ℕ) (n : ℕ) :
    ∀ (extra ps : List MatchCandidate),
      (∀ c ∈ extra, f c < n ∧ ∀ p ∈ ps, f p ≠ f c) →
      List.Pairwise (fun a b => f a ≠ f b) extra →
      ((List.range n).filter
          (fun i => (ps ++ extra).all (fun c => decide (f c ≠ i)))).length + extra.length
        = ((List.range n).filter (fun i => ps.all (fun c => decide (f c ≠ i)))).length := by
  intro extra
  induction extra with
  | nil => intro ps _ _; simp
  | cons c ex ih =>
      intro ps hw hp
      have hps1 : ∀ x ∈ ex, f x < n ∧ ∀ p ∈ ps ++ [c], f p ≠ f x := by
        intro x hx
        refine ⟨(hw x (List.mem_cons_of_mem _ hx)).1, ?_⟩
        intro p hpmem
        rcases List.mem_append.mp hpmem with hpm | hpm
        · exact (hw x (List.mem_cons_of_mem _ hx)).2 p hpm
        · simp only [List.mem_singleton] at hpm
          subst hpm
          exact (List.pairwise_cons.mp hp).1 x hx
      have hstep := ih (ps ++ [c]) hps1 (List.pairwise_cons.mp hp).2
      have hassoc : ps ++ c :: ex = (ps ++ [c]) ++ ex := by simp
      rw [hassoc, List.length_cons]
      have hone : ((List.range n).filter
          (fun i => (ps ++ [c]).all (fun x => decide (f x ≠ i)))).length + 1
          = ((List.range n).filter (fun i => ps.all (fun x => decide (f x ≠ i)))).length := by
        have hff : (List.range n).filter
              (fun i => (ps ++ [c]).all (fun x => decide (f x ≠ i)))
            = ((List.range n).filter
                (fun i => ps.all (fun x => decide (f x ≠ i)))).filter
                  (fun i => decide (f c ≠ i)) := by
          rw [List.filter_filter]
          refine List.filter_congr ?_
          intro i _
          simp [List.all_append, Bool.and_comm]
        rw [hff]
        have hnd : ((List.range n).filter
            (fun i => ps.all (fun x => decide (f x ≠ i)))).Nodup :=
          (List.nodup_range n).filter _
        have hmem : f c ∈ (List.range n).filter
            (fun i => ps.all (fun x => decide (f x ≠ i))) := by
          rw [List.mem_filter]
          refine ⟨List.mem_range.mpr (hw c (List.mem_cons_self _ _)).1, ?_⟩
          rw [List.all_eq_true]
          intro p hpm
          simp only [decide_eq_true_eq]
          exact (hw c (List.mem_cons_self _ _)).2 p hpm
        exact filter_ne_length hnd hmem
      omega

/-! ### The diagonal greedy run of a self-diff -/

/-- Processing a sorted candidate stream of a self-diff greedily assigns
exactly the diagonal: starting from a diagonal state whose claims cover
every index whose diagonal candidate is no longer pending, the final state
is diagonal and claims every index of the collection.  The lexicographic
tie-break is what forces the diagonal choice among coincident zero-score
candidates. -/
theorem greedy_diag (C : List GeometryEntity) (τ : ℤ) (hτ : 0 ≤ τ) :
    ∀ (rem st : List MatchCandidate),
      List.Pairwise candR rem →
      (∀ c ∈ rem, 0 ≤ c.score ∧
        ∃ eo er, C[c.oIdx]? = some eo ∧ C[c.rIdx]? = some er ∧
          c.oId = eo.entity_id ∧ c.rId = er.entity_id) →
      (∀ p ∈ st, p.oIdx = p.rIdx) →
      (∀ i e, C[i]? = some e →
        (⟨i, i, e.entity_id, e.entity_id, 0⟩ : MatchCandidate) ∈ rem ∨
          ∃ p ∈ st, p.oIdx = i) →
      (∀ p ∈ rem.foldl (greedyStep τ) st, p.oIdx = p.rIdx) ∧
      (∀ i e, C[i]? = some e → ∃ p ∈ rem.foldl (greedyStep τ) st, p.oIdx = i) := by
  intro rem
  induction rem with
  | nil =>
      intro st _ _ hdiag hcov
      refine ⟨hdiag, ?_⟩
      intro i e he
      rcases hcov i e he with h | h
      · cases h
      · exact h
  | cons c rest ih =>
      intro st hp hwf hdiag hcov
      have hp' := List.pairwise_cons.mp hp
      by_cases hcond : c.score ≤ τ ∧ ∀ p ∈ st, p.oIdx ≠ c.oIdx ∧ p.rIdx ≠ c.rIdx
      · -- c gets assigned: the tie-break forces it to be diagonal
        obtain ⟨hsc, eo, er, ho, hr, hoid, hrid⟩ := hwf c (List.mem_cons_self _ _)
        have hcdiag : c.oIdx = c.rIdx := by
          by_contra hne
          have hdi_mem :
              (⟨c.oIdx, c.oIdx, eo.entity_id, eo.entity_id, 0⟩ : MatchCandidate) ∈ rest := by
            rcases hcov c.oIdx eo ho with h | h
            · rcases List.mem_cons.mp h with h0 | h0
              · exact absurd (congrArg MatchCandidate.rIdx h0) hne
              · exact h0
            · obtain ⟨p, hpmem, hpi⟩ := h
              exact absurd hpi (hcond.2 p hpmem).1
          have hdj_mem :
              (⟨c.rIdx, c.rIdx, er.entity_id, er.entity_id, 0⟩ : MatchCandidate) ∈ rest := by
            rcases hcov c.rIdx er hr with h | h
            · rcases List.mem_cons.mp h with h0 | h0
              · exact absurd (congrArg MatchCandidate.oIdx h0).symm hne
              · exact h0
            · obtain ⟨p, hpmem, hpi⟩ := h
              have hpr : p.rIdx = c.rIdx := by
                rw [← hdiag p hpmem]
                exact hpi
              exact absurd hpr (hcond.2 p hpmem).2
          have hcdi : candR c ⟨c.oIdx, c.oIdx, eo.entity_id, eo.entity_id, 0⟩ :=
            hp'.1 _ hdi_mem
          have hcdj : candR c ⟨c.rIdx, c.rIdx, er.entity_id, er.entity_id, 0⟩ :=
            hp'.1 _ hdj_mem
          rcases hsc.lt_or_eq with hpos | heq0
          · have hlt2 : candKey ⟨c.oIdx, c.oIdx, eo.entity_id, eo.entity_id, 0⟩ < candKey c :=
              lex5_lt (Or.inl hpos)
            exact absurd hcdi (not_le.mpr hlt2)
          · rcases lt_trichotomy eo.entity_id.data er.entity_id.data with hid | hid | hid
            · have hlt2 : candKey ⟨c.oIdx, c.oIdx, eo.entity_id, eo.entity_id, 0⟩ < candKey c :=
                lex5_lt (Or.inr ⟨heq0, Or.inr ⟨by rw [hoid],
                  Or.inl (by rw [hrid]; exact hid)⟩⟩)
              exact absurd hcdi (not_le.mpr hlt2)
            · rcases Nat.lt_or_ge c.oIdx c.rIdx with hij | hij
              · have hlt2 : candKey ⟨c.oIdx, c.oIdx, eo.entity_id, eo.entity_id, 0⟩ < candKey c :=
                  lex5_lt (Or.inr ⟨heq0, Or.inr ⟨by rw [hoid],
                    Or.inr ⟨by rw [hrid, ← hid], Or.inr ⟨rfl, hij⟩⟩⟩⟩)
                exact absurd hcdi (not_le.mpr hlt2)
              · have hji : c.rIdx < c.oIdx :=
                  lt_of_le_of_ne hij (fun h => hne h.symm)
                have hlt2 : candKey ⟨c.rIdx, c.rIdx, er.entity_id, er.entity_id, 0⟩ < candKey c :=
                  lex5_lt (Or.inr ⟨heq0, Or.inr ⟨by rw [hoid]; exact hid.symm,
                    Or.inr ⟨by rw [hrid], Or.inl hji⟩⟩⟩)
                exact absurd hcdj (not_le.mpr hlt2)
            · have hlt2 : candKey ⟨c.rIdx, c.rIdx, er.entity_id, er.entity_id, 0⟩ < candKey c :=
                lex5_lt (Or.inr ⟨heq0, Or.inl (by rw [hoid]; exact hid)⟩)
              exact absurd hcdj (not_le.mpr hlt2)
        rw [List.foldl_cons, greedyStep_pos τ st c hcond]
        refine ih (st ++ [c]) hp'.2 (fun x hx => hwf x (List.mem_cons_of_mem _ hx)) ?_ ?_
        · intro p hpm
          rcases List.mem_append.mp hpm with h | h
          · exact hdiag p h
          · simp only [List.mem_singleton] at h
            subst h
            exact hcdiag
        · intro i e he
          rcases hcov i e he with h | h
          · rcases List.mem_cons.mp h with h0 | h0
            · right
              exact ⟨c, List.mem_append_right _ (List.mem_singleton.mpr rfl),
                (congrArg MatchCandidate.oIdx h0).symm⟩
            · exact Or.inl h0
          · obtain ⟨p, hpm, hpi⟩ := h
            exact Or.inr ⟨p, List.mem_append_left _ hpm, hpi⟩
      · -- c is skipped: if c was a diagonal candidate, its index is already
        -- claimed by the (diagonal) state
        rw [List.foldl_cons, greedyStep_neg τ st c hcond]
        refine ih st hp'.2 (fun x hx => hwf x (List.mem_cons_of_mem _ hx)) hdiag ?_
        intro i e he
        rcases hcov i e he with h | h
        · rcases List.mem_cons.mp h with h0 | h0
          · right
            have hsc0 : c.score = 0 := (congrArg MatchCandidate.score h0).symm
            have hsc : c.score ≤ τ := by rw [hsc0]; exact hτ
            have hnotfree : ¬∀ p ∈ st, p.oIdx ≠ c.oIdx ∧ p.rIdx ≠ c.rIdx :=
              fun hfree => hcond ⟨hsc, hfree⟩
            push_neg at hnotfree
            obtain ⟨p, hpm, himp⟩ := hnotfree
            have hoi : c.oIdx = i := (congrArg MatchCandidate.oIdx h0).symm
            have hri : c.rIdx = i := (congrArg MatchCandidate.rIdx h0).symm
            by_cases hpo : p.oIdx = c.oIdx
            · exact ⟨p, hpm, by rw [hpo, hoi]⟩
            · have hp1 : p.rIdx = c.rIdx := himp hpo
              exact ⟨p, hpm, by rw [hdiag p hpm, hp1, hri]⟩
          · exact Or.inl h0
        · exact Or.inr h

/-! ### Self-diff assembly -/

/-- Every assigned pair is a candidate. -/
theorem matchPairs_pairs_mem_cands {o r : List GeometryEntity} {t : ToleranceProfile}
    {c : MatchCandidate} (h : c ∈ (matchPairs o r t).pairs) : c ∈ allCandidates o r t := by
  rw [matchPairs_pairs] at h
  rcases greedy_mem _ _ _ _ h with h0 | h0
  · cases h0
  · exact (sortCandidates_perm _).subset h0

/-- The summary counts of the builder, unfolded. -/
theorem buildDiff_summary (o r : List GeometryEntity) (mr : MatchResult) :
    (buildDiff o r mr).summary =
      ⟨mr.unmatched_revised.length, mr.unmatched_original.length,
        mr.pairs.countP (fun c => !(isUnchangedAt o r c)),
        mr.pairs.countP (fun c => isUnchangedAt o r c)⟩ := rfl

/-- Classification of a pair through successful lookups. -/
theorem isUnchangedAt_eq {o r : List GeometryEntity} {c : MatchCandidate}
    {eo er : GeometryEntity} (h1 : o[c.oIdx]? = some eo) (h2 : r[c.rIdx]? = some er) :
    isUnchangedAt o r c = unchangedPair eo er := by
  unfold isUnchangedAt
  rw [h1, h2]

/-- Matching a collection against itself assigns exactly the diagonal:
every pair is diagonal, every index is claimed, and there are as many pairs
as entities. -/
theorem matchPairs_self_perfect (C : List GeometryEntity) (t : ToleranceProfile) :
    (∀ p ∈ (matchPairs C C t).pairs, p.oIdx = p.rIdx) ∧
      (∀ i e, C[i]? = some e → ∃ p ∈ (matchPairs C C t).pairs, p.oIdx = i) ∧
      (matchPairs C C t).pairs.length = C.length := by
  have hτ : (0 : ℤ) ≤ combinedThreshold t := by
    unfold combinedThreshold
    exact mul_self_nonneg _
  have hsorted : List.Pairwise candR (sortCandidates (allCandidates C C t)) :=
    sortCandidates_sorted _
  have hwf : ∀ c ∈ sortCandidates (allCandidates C C t), 0 ≤ c.score ∧
      ∃ eo er, C[c.oIdx]? = some eo ∧ C[c.rIdx]? = some er ∧
        c.oId = eo.entity_id ∧ c.rId = er.entity_id := by
    intro c hc
    obtain ⟨eo, er, ho, hr, _, _, hoid, hrid, hscore⟩ :=
      mem_allCandidates ((sortCandidates_perm _).subset hc)
    exact ⟨by rw [hscore]; exact distanceScore_nonneg t eo er, eo, er, ho, hr, hoid, hrid⟩
  have hcov : ∀ i e, C[i]? = some e →
      (⟨i, i, e.entity_id, e.entity_id, 0⟩ : MatchCandidate) ∈
          sortCandidates (allCandidates C C t) ∨
        ∃ p ∈ ([] : List MatchCandidate), p.oIdx = i := by
    intro i e he
    exact Or.inl ((sortCandidates_perm _).mem_iff.mpr (diag_mem_allCandidates he))
  have hmain := greedy_diag C (combinedThreshold t) hτ
    (sortCandidates (allCandidates C C t)) [] hsorted hwf (fun p hp => by cases hp) hcov
  have hpairs : (matchPairs C C t).pairs =
      (sortCandidates (allCandidates C C t)).foldl (greedyStep (combinedThreshold t)) [] :=
    matchPairs_pairs C C t
  refine ⟨by rw [hpairs]; exact hmain.1, by rw [hpairs]; exact hmain.2, ?_⟩
  -- cardinality of the diagonal assignment
  have hdisj : List.Pairwise candDisj (matchPairs C C t).pairs := by
    rw [hpairs]
    exact greedy_disjoint _ _ [] List.Pairwise.nil
  have hclaims : ∀ i e, C[i]? = some e → ∃ p ∈ (matchPairs C C t).pairs, p.oIdx = i := by
    rw [hpairs]
    exact hmain.2
  have hnd : ((matchPairs C C t).pairs.map (fun c => c.oIdx)).Nodup :=
    hdisj.map _ (fun a b hab => hab.1)
  have hlt : ∀ x ∈ (matchPairs C C t).pairs.map (fun c => c.oIdx), x < C.length := by
    intro x hx
    obtain ⟨c, hc, rfl⟩ := List.mem_map.mp hx
    obtain ⟨eo, er, ho, _, _, _, _, _, _⟩ := mem_allCandidates (matchPairs_pairs_mem_cands hc)
    exact (List.getElem?_eq_some_iff.mp ho).1
  have hcover : ∀ i ∈ List.range C.length,
      i ∈ (matchPairs C C t).pairs.map (fun c => c.oIdx) := by
    intro i hi
    have hilen := List.mem_range.mp hi
    have he := List.getElem?_eq_getElem hilen
    obtain ⟨p, hp, hpi⟩ := hclaims i _ he
    exact List.mem_map.mpr ⟨p, hp, hpi⟩
  have h1 : C.length ≤ ((matchPairs C C t).pairs.map (fun c => c.oIdx)).length := by
    have := ((List.nodup_range C.length).subperm
      (fun i hi => hcover i hi)).length_le
    simpa using this
  have h2 : ((matchPairs C C t).pairs.map (fun c => c.oIdx)).length ≤ C.length := by
    have := (hnd.subperm (fun x hx => List.mem_range.mpr (hlt x hx))).length_le
    simpa using this
  have hmaplen := le_antisymm h2 h1
  rw [List.length_map] at hmaplen
  exact hmaplen

/-- C3: diffing a collection against itself under any valid tolerance
profile yields `added = 0`, `removed = 0`, `modified = 0` and
`unchanged = len(collection)`. -/
theorem selfDiff_summary (C : List GeometryEntity) (t : ToleranceProfile)
    (hpos : 0 < t.position_tolerance) (hang : 0 < t.angle_tolerance) :
    ∃ d, matchEngine C C t = Except.ok d ∧
      d.1.summary = ⟨0, 0, 0, C.length⟩ := by
  have hok : matchEngine C C t = Except.ok (computeDiff C C t, collectDiagnostics C C) := by
    rw [matchEngine, if_pos ⟨hpos, hang⟩]
  refine ⟨_, hok, ?_⟩
  have hcd : computeDiff C C t = buildDiff C C (matchPairs C C t) := by
    unfold computeDiff
    rw [map_transformEntity_self]
  show (computeDiff C C t).summary = _
  rw [hcd, buildDiff_summary]
  obtain ⟨hdiag, hcov, hlen⟩ := matchPairs_self_perfect C t
  have hunch : ∀ c ∈ (matchPairs C C t).pairs, isUnchangedAt C C c = true := by
    intro c hc
    obtain ⟨eo, er, ho, hr, _, _, _, _, _⟩ := mem_allCandidates (matchPairs_pairs_mem_cands hc)
    have hdr : C[c.rIdx]? = some eo := by
      rw [← hdiag c hc]
      exact ho
    have her : er = eo := Option.some_inj.mp (hr ▸ hdr)
    rw [isUnchangedAt_eq ho hr, her]
    exact unchangedPair_self eo
  have hremoved : (matchPairs C C t).unmatched_original = [] := by
    rw [matchPairs_unmatchedO]
    rw [List.filter_eq_nil_iff]
    intro i hi
    obtain ⟨p, hp, hpi⟩ := hcov i _ (List.getElem?_eq_getElem (List.mem_range.mp hi))
    intro hall
    have := List.all_eq_true.mp hall p hp
    simp only [decide_eq_true_eq] at this
    exact this hpi
  have hadded : (matchPairs C C t).unmatched_revised = [] := by
    rw [matchPairs_unmatchedR]
    rw [List.filter_eq_nil_iff]
    intro j hj
    obtain ⟨p, hp, hpj⟩ := hcov j _ (List.getElem?_eq_getElem (List.mem_range.mp hj))
    intro hall
    have := List.all_eq_true.mp hall p hp
    simp only [decide_eq_true_eq] at this
    exact this (by rw [← hdiag p hp]; exact hpj)
  have hmod : (matchPairs C C t).pairs.countP (fun c => !(isUnchangedAt C C c)) = 0 := by
    rw [List.countP_eq_zero]
    intro c hc
    simp [hunch c hc]
  have huncount : (matchPairs C C t).pairs.countP (fun c => isUnchangedAt C C c)
      = (matchPairs C C t).pairs.length := by
    rw [List.countP_eq_length]
    intro c hc
    exact hunch c hc
  rw [hremoved, hadded, hmod, huncount, hlen]
  rfl

/-- Witness for C3: a two-entity collection diffed against itself. -/
theorem selfDiff_summary_witness :
    ∃ d, matchEngine
        [⟨"a", EntityType.line, "WALL", 1, [(0, 0), (10, 0)], none, Source.original⟩,
         ⟨"b", EntityType.line, "WALL", 1, [(0, 5), (10, 5)], none, Source.original⟩]
        [⟨"a", EntityType.line, "WALL", 1, [(0, 0), (10, 0)], none, Source.original⟩,
         ⟨"b", EntityType.line, "WALL", 1, [(0, 5), (10, 5)], none, Source.original⟩]
        ⟨3, 1, false⟩ = Except.ok d ∧
      d.1.summary = ⟨0, 0, 0, 2⟩ :=
  selfDiff_summary _ ⟨3, 1, false⟩ (by decide) (by decide)

/-- Witness for C2: a one-entity self-match produces the pair (0,0), whose
two sides agree on type and layer. -/
theorem matcher_layer_type_isolation_witness :
    (⟨0, 0, "a", "a", 0⟩ : MatchCandidate).oIdx < [sampleWallA].length ∧
      (⟨0, 0, "a", "a", 0⟩ : MatchCandidate).rIdx < [sampleWallA].length ∧
      ∀ eo er,
        [sampleWallA][(⟨0, 0, "a", "a", 0⟩ : MatchCandidate).oIdx]? = some eo →
        [sampleWallA][(⟨0, 0, "a", "a", 0⟩ : MatchCandidate).rIdx]? = some er →
        eo.entity_type = er.entity_type ∧ eo.layer = er.layer :=
  matcher_layer_type_isolation [sampleWallA] [sampleWallA] sampleTol
    ⟨0, 0, "a", "a", 0⟩ (by decide)

/-! ### Tolerance monotonicity -/

/-- C4: for a fixed input pair, two valid tolerance profiles differing only
in `position_tolerance`, the larger position tolerance never increases the
`modified + removed + added` count of the diff. -/
theorem tolerance_monotonicity (o r : List GeometryEntity) (t tl : ToleranceProfile)
    (hpos : 0 < t.position_tolerance) (hang : 0 < t.angle_tolerance)
    (hlt : t.position_tolerance < tl.position_tolerance)
    (hangeq : tl.angle_tolerance = t.angle_tolerance)
    (hstrict : tl.attribute_strict = t.attribute_strict) :
    ∀ d dl, matchEngine o r t = Except.ok d → matchEngine o r tl = Except.ok dl →
      diffChangeSum dl.1 ≤ diffChangeSum d.1 := by
  intro d dl hd hdl
  have hpos2 : 0 < tl.position_tolerance := lt_trans hpos hlt
  have hang2 : 0 < tl.angle_tolerance := by rw [hangeq]; exact hang
  have hv : validTolerance t := ⟨hpos, hang⟩
  have hvl : validTolerance tl := ⟨hpos2, hang2⟩
  rw [matchEngine, if_pos hv] at hd
  rw [matchEngine, if_pos hvl] at hdl
  have hdq := Except.ok.inj hd
  have hdlq := Except.ok.inj hdl
  subst hdq
  subst hdlq
  set rn := r.map (transformEntity (normalize o r).1) with hrn
  have hcand : allCandidates o rn tl = allCandidates o rn t := by
    unfold allCandidates
    simp only [distanceScore_congr hstrict]
  have hthr : combinedThreshold t ≤ combinedThreshold tl := by
    unfold combinedThreshold
    exact mul_le_mul hlt.le hlt.le hpos.le hpos2.le
  obtain ⟨extra, hext⟩ := greedy_mono (combinedThreshold t) (combinedThreshold tl) hthr
    (sortCandidates (allCandidates o rn t)) (sortCandidates_sorted _) []
  have hPl : (matchPairs o rn tl).pairs = (matchPairs o rn t).pairs ++ extra := by
    rw [matchPairs_pairs, matchPairs_pairs, hcand]
    exact hext
  have hdisj2 : List.Pairwise candDisj ((matchPairs o rn t).pairs ++ extra) := by
    rw [← hPl, matchPairs_pairs]
    exact greedy_disjoint _ _ [] List.Pairwise.nil
  have hextraNew : ∀ c ∈ extra, c.oIdx < o.length ∧ c.rIdx < rn.length ∧
      ∀ p ∈ (matchPairs o rn t).pairs, p.oIdx ≠ c.oIdx ∧ p.rIdx ≠ c.rIdx := by
    intro c hc
    have hcmem : c ∈ (matchPairs o rn tl).pairs := by
      rw [hPl]
      exact List.mem_append_right _ hc
    obtain ⟨eo, er, ho, hr, _, _, _, _, _⟩ :=
      mem_allCandidates (matchPairs_pairs_mem_cands hcmem)
    exact ⟨(List.getElem?_eq_some_iff.mp ho).1, (List.getElem?_eq_some_iff.mp hr).1,
      fun p hp => (List.pairwise_append.mp hdisj2).2.2 p hp c hc⟩
  have hpairwO : List.Pairwise (fun a b => a.oIdx ≠ b.oIdx) extra :=
    ((List.pairwise_append.mp hdisj2).2.1).imp (fun h => h.1)
  have hpairwR : List.Pairwise (fun a b => a.rIdx ≠ b.rIdx) extra :=
    ((List.pairwise_append.mp hdisj2).2.1).imp (fun h => h.2)
  have hremoved : (matchPairs o rn tl).unmatched_original.length + extra.length
      = (matchPairs o rn t).unmatched_original.length := by
    rw [matchPairs_unmatchedO, matchPairs_unmatchedO, hPl]
    exact unmatched_count_extend (fun c => c.oIdx) o.length extra (matchPairs o rn t).pairs
      (fun c hc => ⟨(hextraNew c hc).1, fun p hp => ((hextraNew c hc).2.2 p hp).1⟩) hpairwO
  have hadded : (matchPairs o rn tl).unmatched_revised.length + extra.length
      = (matchPairs o rn t).unmatched_revised.length := by
    rw [matchPairs_unmatchedR, matchPairs_unmatchedR, hPl]
    exact unmatched_count_extend (fun c => c.rIdx) rn.length extra (matchPairs o rn t).pairs
      (fun c hc => ⟨(hextraNew c hc).2.1, fun p hp => ((hextraNew c hc).2.2 p hp).2⟩) hpairwR
  have hmodified : (matchPairs o rn tl).pairs.countP (fun c => !(isUnchangedAt o rn c))
      = (matchPairs o rn t).pairs.countP (fun c => !(isUnchangedAt o rn c))
        + extra.countP (fun c => !(isUnchangedAt o rn c)) := by
    rw [hPl, List.countP_append]
  have hkle : extra.countP (fun c => !(isUnchangedAt o rn c)) ≤ extra.length :=
    List.countP_le_length _
  have hsum1 : diffChangeSum (computeDiff o r t)
      = (matchPairs o rn t).pairs.countP (fun c => !(isUnchangedAt o rn c))
        + (matchPairs o rn t).unmatched_original.length
        + (matchPairs o rn t).unmatched_revised.length := rfl
  have hsum2 : diffChangeSum (computeDiff o r tl)
      = (matchPairs o rn tl).pairs.countP (fun c => !(isUnchangedAt o rn c))
        + (matchPairs o rn tl).unmatched_original.length
        + (matchPairs o rn tl).unmatched_revised.length := rfl
  show diffChangeSum (computeDiff o r tl) ≤ diffChangeSum (computeDiff o r t)
  rw [hsum1, hsum2]
  omega

/-- Witness for C4: one original entity and an empty revised collection,
with position tolerances 1 and 2. -/
theorem tolerance_monotonicity_witness :
    diffChangeSum (computeDiff [sampleWallA] [] ⟨2, 1, false⟩) ≤
      diffChangeSum (computeDiff [sampleWallA] [] ⟨1, 1, false⟩) :=
  tolerance_monotonicity [sampleWallA] [] ⟨1, 1, false⟩ ⟨2, 1, false⟩
    (by decide) (by decide) (by decide) rfl rfl _ _ rfl rfl

/-! ### Record ordering -/

/-- C6: the record list of a diff result is exactly the removed records
(sorted by original entity id ascending), then the added records (sorted by
revised entity id ascending), then the modified records (sorted by original
entity id ascending); each record's `entity_id` is the id of the
authoritative side. -/
theorem diff_records_order (o r : List GeometryEntity) (mr : MatchResult) :
    ∃ ra rb rc, (buildDiff o r mr).records = ra ++ rb ++ rc ∧
      (∀ x ∈ ra, x.change_type = ChangeType.removed ∧ x.original_ref = some x.entity_id) ∧
      List.Sorted recR ra ∧
      (∀ x ∈ rb, x.change_type = ChangeType.added ∧ x.revised_ref = some x.entity_id) ∧
      List.Sorted recR rb ∧
      (∀ x ∈ rc, x.change_type = ChangeType.modified ∧ x.original_ref = some x.entity_id) ∧
      List.Sorted recR rc := by
  refine ⟨_, _, _, rfl, ?_, List.sorted_insertionSort recR _, ?_,
    List.sorted_insertionSort recR _, ?_, List.sorted_insertionSort recR _⟩
  · intro x hx
    have hx2 := (List.perm_insertionSort recR _).subset hx
    obtain ⟨i, _, heq⟩ := List.mem_filterMap.mp hx2
    obtain ⟨e, _, hfe⟩ := Option.map_eq_some'.mp heq
    rw [← hfe]
    exact ⟨rfl, rfl⟩
  · intro x hx
    have hx2 := (List.perm_insertionSort recR _).subset hx
    obtain ⟨j, _, heq⟩ := List.mem_filterMap.mp hx2
    obtain ⟨e, _, hfe⟩ := Option.map_eq_some'.mp heq
    rw [← hfe]
    exact ⟨rfl, rfl⟩
  · intro x hx
    have hx2 := (List.perm_insertionSort recR _).subset hx
    obtain ⟨c, _, heq⟩ := List.mem_filterMap.mp hx2
    rcases ho : o[c.oIdx]? with _ | eo <;> rw [ho] at heq
    · exact Option.noConfusion heq
    · rcases hr2 : r[c.rIdx]? with _ | er <;> rw [hr2] at heq
      · exact Option.noConfusion heq
      · have hxe := Option.some_inj.mp heq
        rw [← hxe]
        exact ⟨rfl, rfl⟩

/-- Witness for C6 at a small match result over the sample entities. -/
theorem diff_records_order_witness :
    ∃ ra rb rc,
      (buildDiff [sampleWallA] [sampleWallB] ⟨[], [0], [0]⟩).records = ra ++ rb ++ rc ∧
        (∀ x ∈ ra, x.change_type = ChangeType.removed ∧ x.original_ref = some x.entity_id) ∧
        List.Sorted recR ra ∧
        (∀ x ∈ rb, x.change_type = ChangeType.added ∧ x.revised_ref = some x.entity_id) ∧
        List.Sorted recR rb ∧
        (∀ x ∈ rc, x.change_type = ChangeType.modified ∧ x.original_ref = some x.entity_id) ∧
        List.Sorted recR rc :=
  diff_records_order [sampleWallA] [sampleWallB] ⟨[], [0], [0]⟩

/-! ### Determinism, tie-break and bucket parallelism -/

/-- The spec's tie-break: among equal-score candidates, the one whose entity
id pair sorts lexicographically first comes strictly earlier in the
processing order. -/
theorem candR_tie_break (a b : MatchCandidate) (hs : a.score = b.score)
    (hid : idPairLt a b) : candR a b ∧ ¬candR b a := by
  have hcase := (Prod.Lex.lt_iff _ _).mp hid
  have hklt : candKey a < candKey b := by
    rcases hcase with h | ⟨h1, h2⟩
    · exact lex5_lt (Or.inr ⟨hs, Or.inl h⟩)
    · exact lex5_lt (Or.inr ⟨hs, Or.inr ⟨h1, Or.inl h2⟩⟩)
  exact ⟨le_of_lt hklt, not_le.mpr hklt⟩

/-- Greedy assignment commutes with restriction to a bucket, provided
conflicts only happen inside a bucket: the global run restricted to one
bucket equals the run over that bucket's candidates alone.  This is the
determinism of the per-bucket parallel evaluation with a deterministic
merge (spec section 5). -/
theorem greedy_bucket_comm {κ : Type} [DecidableEq κ] (τ : ℤ)
    (bk : MatchCandidate → κ) (k : κ) :
    ∀ (cs st : List MatchCandidate),
      (∀ a, (a ∈ st ∨ a ∈ cs) → ∀ b, (b ∈ st ∨ b ∈ cs) → candConflict a b → bk a = bk b) →
      (cs.foldl (greedyStep τ) st).filter (fun c => decide (bk c = k)) =
        (cs.filter (fun c => decide (bk c = k))).foldl (greedyStep τ)
          (st.filter (fun c => decide (bk c = k))) := by
  intro cs
  induction cs with
  | nil => intro st _; rfl
  | cons c rest ih =>
      intro st hconf
      have hconf1 : ∀ a, (a ∈ st ++ [c] ∨ a ∈ rest) → ∀ b, (b ∈ st ++ [c] ∨ b ∈ rest) →
          candConflict a b → bk a = bk b := by
        have htr : ∀ a, (a ∈ st ++ [c] ∨ a ∈ rest) → (a ∈ st ∨ a ∈ c :: rest) := by
          intro a ha
          rcases ha with h | h
          · rcases List.mem_append.mp h with h | h
            · exact Or.inl h
            · simp only [List.mem_singleton] at h
              exact Or.inr (by rw [h]; exact List.mem_cons_self _ _)
          · exact Or.inr (List.mem_cons_of_mem _ h)
        intro a ha b hb hab
        exact hconf a (htr a ha) b (htr b hb) hab
      have hconf2 : ∀ a, (a ∈ st ∨ a ∈ rest) → ∀ b, (b ∈ st ∨ b ∈ rest) →
          candConflict a b → bk a = bk b := by
        intro a ha b hb hab
        exact hconf a (ha.imp id (List.mem_cons_of_mem _)) b
          (hb.imp id (List.mem_cons_of_mem _)) hab
      rw [List.foldl_cons]
      by_cases hbk : bk c = k
      · have hfree_iff : (∀ p ∈ st, p.oIdx ≠ c.oIdx ∧ p.rIdx ≠ c.rIdx) ↔
            (∀ p ∈ st.filter (fun x => decide (bk x = k)),
              p.oIdx ≠ c.oIdx ∧ p.rIdx ≠ c.rIdx) := by
          constructor
          · intro h p hp
            exact h p (List.mem_filter.mp hp).1
          · intro h p hp
            by_contra hnd
            rcases not_and_or.mp hnd with h1 | h1
            · have hpo : p.oIdx = c.oIdx := not_ne_iff.mp h1
              have hbkp : bk p = bk c :=
                hconf p (Or.inl hp) c (Or.inr (List.mem_cons_self _ _)) (Or.inl hpo)
              have hpf : p ∈ st.filter (fun x => decide (bk x = k)) := by
                rw [List.mem_filter]
                exact ⟨hp, by simp [hbkp, hbk]⟩
              exact (h p hpf).1 hpo
            · have hpr : p.rIdx = c.rIdx := not_ne_iff.mp h1
              have hbkp : bk p = bk c :=
                hconf p (Or.inl hp) c (Or.inr (List.mem_cons_self _ _)) (Or.inr hpr)
              have hpf : p ∈ st.filter (fun x => decide (bk x = k)) := by
                rw [List.mem_filter]
                exact ⟨hp, by simp [hbkp, hbk]⟩
              exact (h p hpf).2 hpr
        have hfc : (c :: rest).filter (fun x => decide (bk x = k)) =
            c :: rest.filter (fun x => decide (bk x = k)) := by
          rw [List.filter_cons, if_pos (by simp [hbk])]
        by_cases hcond : c.score ≤ τ ∧ ∀ p ∈ st, p.oIdx ≠ c.oIdx ∧ p.rIdx ≠ c.rIdx
        · rw [greedyStep_pos τ st c hcond, ih (st ++ [c]) hconf1]
          have hfilst : (st ++ [c]).filter (fun x => decide (bk x = k)) =
              st.filter (fun x => decide (bk x = k)) ++ [c] := by
            rw [List.filter_append, List.filter_cons, if_pos (by simp [hbk])]
            rfl
          rw [hfilst, hfc, List.foldl_cons,
            greedyStep_pos τ _ c ⟨hcond.1, hfree_iff.mp hcond.2⟩]
        · rw [greedyStep_neg τ st c hcond, ih st hconf2, hfc, List.foldl_cons,
            greedyStep_neg τ _ c (fun hx => hcond ⟨hx.1, hfree_iff.mpr hx.2⟩)]
      · have hfc : (c :: rest).filter (fun x => decide (bk x = k)) =
            rest.filter (fun x => decide (bk x = k)) := by
          rw [List.filter_cons, if_neg (by simp [hbk])]
        by_cases hcond : c.score ≤ τ ∧ ∀ p ∈ st, p.oIdx ≠ c.oIdx ∧ p.rIdx ≠ c.rIdx
        · rw [greedyStep_pos τ st c hcond, ih (st ++ [c]) hconf1]
          have hfilst : (st ++ [c]).filter (fun x => decide (bk x = k)) =
              st.filter (fun x => decide (bk x = k)) := by
            rw [List.filter_append, List.filter_cons, if_neg (by simp [hbk])]
            simp
          rw [hfilst, hfc]
        · rw [greedyStep_neg τ st c hcond, ih st hconf2, hfc]

/-- The global matcher run restricted to one `(entity_type, layer)` bucket
equals the greedy run over that bucket's sorted candidates alone. -/
theorem matchPairs_bucket (o r : List GeometryEntity) (t : ToleranceProfile)
    (k : Option (EntityType × String)) :
    (matchPairs o r t).pairs.filter (fun c => decide (bucketAtO o c = k)) =
      ((sortCandidates (allCandidates o r t)).filter
        (fun c => decide (bucketAtO o c = k))).foldl (greedyStep (combinedThreshold t)) [] := by
  rw [matchPairs_pairs]
  have hconf : ∀ a, (a ∈ ([] : List MatchCandidate) ∨
        a ∈ sortCandidates (allCandidates o r t)) →
      ∀ b, (b ∈ ([] : List MatchCandidate) ∨ b ∈ sortCandidates (allCandidates o r t)) →
      candConflict a b → bucketAtO o a = bucketAtO o b := by
    intro a ha b hb hab
    rcases ha with ha | ha
    · cases ha
    rcases hb with hb | hb
    · cases hb
    obtain ⟨eoA, erA, hoA, hrA, htyA, hlyA, _, _, _⟩ :=
      mem_allCandidates ((sortCandidates_perm _).subset ha)
    obtain ⟨eoB, erB, hoB, hrB, htyB, hlyB, _, _, _⟩ :=
      mem_allCandidates ((sortCandidates_perm _).subset hb)
    rcases hab with h | h
    · unfold bucketAtO
      rw [h]
    · unfold bucketAtO
      rw [hoA, hoB, Option.map_some', Option.map_some']
      have hrB2 : r[a.rIdx]? = some erB := by
        rw [h]
        exact hrB
      have herAB : erA = erB := Option.some_inj.mp (hrA ▸ hrB2)
      rw [htyA, hlyA, herAB, ← htyB, ← hlyB]
  have h := greedy_bucket_comm (combinedThreshold t) (bucketAtO o) k
    (sortCandidates (allCandidates o r t)) [] hconf
  simpa using h

/-- C1: the matcher is a pure function, so repeated calls on fixed inputs
return identical results; the candidate stream it processes is totally
ordered by score with the lexicographic entity-id tie-break (equal scores
prefer the lexicographically first id pair, strictly); and per-bucket
processing with a deterministic merge (the model of candidate-bucket
parallelism) yields exactly the global result on every bucket. -/
theorem matcher_determinism_tie_break :
    (∀ o r t, matchEngine o r t = matchEngine o r t) ∧
      (∀ cs, List.Sorted candR (sortCandidates cs) ∧ (sortCandidates cs).Perm cs) ∧
      (∀ a b, a.score = b.score → idPairLt a b → candR a b ∧ ¬candR b a) ∧
      (∀ o r t k, (matchPairs o r t).pairs.filter (fun c => decide (bucketAtO o c = k)) =
        ((sortCandidates (allCandidates o r t)).filter
          (fun c => decide (bucketAtO o c = k))).foldl
            (greedyStep (combinedThreshold t)) []) :=
  ⟨fun _ _ _ => rfl,
    fun cs => ⟨sortCandidates_sorted cs, sortCandidates_perm cs⟩,
    candR_tie_break,
    matchPairs_bucket⟩

/-- Witness for C1: two equal-score candidates with lexicographically
ordered id pairs are strictly ordered by the processing order. -/
theorem matcher_determinism_tie_break_witness :
    candR ⟨0, 1, "a", "x", 5⟩ ⟨2, 3, "b", "a", 5⟩ ∧
      ¬candR ⟨2, 3, "b", "a", 5⟩ ⟨0, 1, "a", "x", 5⟩ :=
  matcher_determinism_tie_break.2.2.1 ⟨0, 1, "a", "x", 5⟩ ⟨2, 3, "b", "a", 5⟩ rfl (by decide)

end FloorPlan
